import Mathlib

set_option linter.unusedTactic false
set_option linter.unreachableTactic false
set_option linter.unusedVariables false

/-!
# Verification of the Worldview layer date-range resolver and permalink codec

Shallow embedding of `src/web/js/modules/layers/util.js` (NASA-worldview).

Conventions of the embedding:

* A JavaScript `Date` is its UTC epoch time in integer milliseconds (`Int`).
  The runtime's local timezone is modelled as UTC, so `getTimezoneOffset()`
  is `0`, `util.getTimezoneOffsetDate` is the identity, and the local-time
  constructor `new Date(y, m, d, ...)` coincides with `Date.UTC`.
* Calendar field extraction (`getUTCFullYear` etc.) follows the ECMA-262
  definition: `YearFromTime(t)` is the largest year whose first instant is
  `≤ t`; it is computed here by a bounded downward search inside a 400-year
  Gregorian era (146097 days), which is executable and provably correct.
* ISO date strings appearing in layer configuration (`startDate`,
  `endDate`, `appNow`, ...) are modelled as parsed field records
  (`DateSpec`); `new Date(isoString)` is `DateSpec.toTime`.
-/

/-! ## Calendar model of the ECMAScript Date (UTC runtime) -/

def msPerMinute : Int := 60000

def msPerHour : Int := 3600000

def msPerDay : Int := 86400000

/-- Leap year test in the proleptic Gregorian calendar. -/
def isLeap (y : Int) : Bool := y % 4 == 0 && (y % 100 != 0 || y % 400 == 0)

/-- Days from 0000-01-01 to `y`-01-01 (proleptic Gregorian; floor division
    makes the formula valid for negative years as well). -/
def daysToYear (y : Int) : Int :=
  365 * y + (y + 3) / 4 - (y + 99) / 100 + (y + 399) / 400

/-- Cumulative days before the 0-based month `mo` in a non-leap year. -/
def cumDays (mo : Int) : Int :=
  if mo ≤ 0 then 0 else if mo = 1 then 31 else if mo = 2 then 59
  else if mo = 3 then 90 else if mo = 4 then 120 else if mo = 5 then 151
  else if mo = 6 then 181 else if mo = 7 then 212 else if mo = 8 then 243
  else if mo = 9 then 273 else if mo = 10 then 304 else if mo = 11 then 334
  else 365

/-- Cumulative days before 0-based month `mo` of year `y` (leap aware). -/
def cumDaysLeap (y mo : Int) : Int :=
  cumDays mo + (if 2 ≤ mo ∧ isLeap y then 1 else 0)

/-- Number of days in the 0-based month `mo` of year `y`. -/
def daysInMonth (y mo : Int) : Int :=
  if mo = 1 then (if isLeap y then 29 else 28)
  else if mo = 3 ∨ mo = 5 ∨ mo = 8 ∨ mo = 10 then 30 else 31

/-- Absolute day number (days since 0000-01-01) of the first day of month
    index `M` where `M = 12*year + month0` for an arbitrary integer `M`.
    This realizes the rollover of out-of-range month arguments in the JS
    `Date` constructor. -/
def monthStartDay (M : Int) : Int :=
  daysToYear (M / 12) + cumDaysLeap (M / 12) (M % 12)

/-- Epoch day number of 1970-01-01. -/
def epochDay : Int := 719528

/-- Milliseconds of `Date.UTC(y, mo, d, hh, mm, ss)`; the month is 0-based
    and every field may lie outside its calendar range (rollover semantics of
    the ECMAScript `MakeDay`/`MakeTime` operations). -/
def jsUTC (y mo d hh mm ss : Int) : Int :=
  (monthStartDay (12 * y + mo) + (d - 1) - epochDay) * msPerDay
    + hh * msPerHour + mm * msPerMinute + ss * 1000

/-- Largest `r < n` with `f r ≤ target`, or `0` if there is none. -/
def searchDown (f : Int → Int) (target : Int) : Nat → Int
  | 0 => 0
  | n + 1 => if f n ≤ target then (n : Int) else searchDown f target n

/-- Search window for `yearInEra`: since a year has at least 365 days the
    year of day `r` is below `r / 365 + 2`, and an era has 400 years. -/
def yearInEraFuel (r : Int) : Nat := (min 400 (r / 365 + 2)).toNat

/-- Year inside a 400-year era (day `r` with `0 ≤ r < 146097`): the largest
    `y ∈ [0, 399]` whose first day number is `≤ r`. -/
def yearInEra (r : Int) : Int := searchDown daysToYear r (yearInEraFuel r)

/-- Era decomposition: civil year of absolute day number `z`. -/
def civilYear (z : Int) : Int :=
  400 * (z / 146097) + yearInEra (z % 146097)

/-- Day index inside the year of absolute day number `z`. -/
def civilDayOfYear (z : Int) : Int :=
  z % 146097 - daysToYear (yearInEra (z % 146097))

/-- Civil 0-based month of absolute day number `z`. -/
def civilMonth0 (z : Int) : Int :=
  searchDown (cumDaysLeap (civilYear z)) (civilDayOfYear z) 12

/-- Civil day-of-month (1-based) of absolute day number `z`. -/
def civilDay (z : Int) : Int :=
  civilDayOfYear z - cumDaysLeap (civilYear z) (civilMonth0 z) + 1

/-- Absolute day number of epoch time `t` in milliseconds. -/
def dayNumOfTime (t : Int) : Int := t / msPerDay + epochDay

def getUTCFullYear (t : Int) : Int := civilYear (dayNumOfTime t)

def getUTCMonth (t : Int) : Int := civilMonth0 (dayNumOfTime t)

def getUTCDate (t : Int) : Int := civilDay (dayNumOfTime t)

def getUTCHours (t : Int) : Int := (t / msPerHour) % 24

def getUTCMinutes (t : Int) : Int := (t / msPerMinute) % 60

def getUTCSeconds (t : Int) : Int := (t / 1000) % 60

/-- A parsed ISO-8601 UTC date-time, the model of the date strings in layer
    configuration (`"2020-01-01"`, `"2021-06-01T11:07:00Z"`, ...): `new
    Date(isoString)` is `DateSpec.toTime`. The month is stored 0-based as in
    `Date.prototype.getUTCMonth`. -/
structure DateSpec where
  year : Int
  month : Int
  day : Int
  hour : Int := 0
  minute : Int := 0
  second : Int := 0
deriving DecidableEq, Repr

def DateSpec.toTime (s : DateSpec) : Int :=
  jsUTC s.year s.month s.day s.hour s.minute s.second

/-- The field ranges every really-parsed ISO string satisfies. -/
def DateSpec.Valid (s : DateSpec) : Prop :=
  0 ≤ s.month ∧ s.month ≤ 11 ∧ 1 ≤ s.day ∧ s.day ≤ daysInMonth s.year s.month ∧
    0 ≤ s.hour ∧ s.hour ≤ 23 ∧ 0 ≤ s.minute ∧ s.minute ≤ 59 ∧
    0 ≤ s.second ∧ s.second ≤ 59

instance (s : DateSpec) : Decidable s.Valid := by
  unfold DateSpec.Valid; infer_instance

/-- Field record of an epoch time, as printed by `util.toISOStringSeconds`
    (milliseconds are truncated away). -/
def specOfTime (t : Int) : DateSpec :=
  { year := getUTCFullYear t, month := getUTCMonth t, day := getUTCDate t,
    hour := getUTCHours t, minute := getUTCMinutes t, second := getUTCSeconds t }

/-! ### Calendar lemmas -/

theorem daysToYear_succ (y : Int) :
    daysToYear (y + 1) = daysToYear y + (if isLeap y then 366 else 365) := by
  simp only [daysToYear, isLeap]
  split <;> rename_i h <;>
    simp only [Bool.and_eq_true, Bool.or_eq_true, beq_iff_eq, bne_iff_ne, ne_eq] at h <;> omega

/-- Strict monotonicity on an interval from the one-step property. -/
theorem strictMonoOnInt (f : Int → Int) (lo hi : Int)
    (h : ∀ m, lo ≤ m → m < hi → f m < f (m + 1)) :
    ∀ a b, lo ≤ a → a < b → b ≤ hi → f a < f b := by
  intro a b ha hab hb
  have step : ∀ n : Nat, a + 1 + n ≤ hi → f a < f (a + 1 + n) := by
    intro n
    induction n with
    | zero => intro hn; rw [Nat.cast_zero, add_zero]; exact h a ha (by omega)
    | succ k ih =>
        intro hn
        have he : a + 1 + (k + 1 : Nat) = (a + 1 + k) + 1 := by push_cast; ring
        rw [he]
        have h1 := ih (by push_cast at hn ⊢; omega)
        have h2 := h (a + 1 + k) (by omega) (by push_cast at hn; omega)
        omega
  have hb' : b = a + 1 + ((b - a - 1).toNat : Int) := by omega
  rw [hb']
  exact step _ (by omega)

theorem daysToYear_strictMono {a b : Int} (h : a < b) : daysToYear a < daysToYear b := by
  refine strictMonoOnInt daysToYear a b (fun m _ _ => ?_) a b le_rfl h le_rfl
  rw [daysToYear_succ]; split <;> omega

theorem daysToYear_mono {a b : Int} (h : a ≤ b) : daysToYear a ≤ daysToYear b := by
  rcases lt_or_eq_of_le h with h | h
  · exact le_of_lt (daysToYear_strictMono h)
  · rw [h]

/-- One 400-year era is exactly 146097 days. -/
theorem daysToYear_era (k r : Int) :
    daysToYear (400 * k + r) = 146097 * k + daysToYear r := by
  simp only [daysToYear]
  have h4 : (400 * k + r + 3) / 4 = 100 * k + (r + 3) / 4 := by omega
  have h100 : (400 * k + r + 99) / 100 = 4 * k + (r + 99) / 100 := by omega
  have h400 : (400 * k + r + 399) / 400 = k + (r + 399) / 400 := by omega
  rw [h4, h100, h400]; ring

/-- Leap structure repeats every 400 years. -/
theorem isLeap_era (k r : Int) : isLeap (400 * k + r) = isLeap r := by
  simp only [isLeap]
  have h4 : (400 * k + r) % 4 = r % 4 := by omega
  have h100 : (400 * k + r) % 100 = r % 100 := by omega
  have h400 : (400 * k + r) % 400 = r % 400 := by omega
  rw [h4, h100, h400]

theorem searchDown_le (f : Int → Int) (target : Int) (n : Nat) (h0 : f 0 ≤ target) :
    f (searchDown f target n) ≤ target := by
  induction n with
  | zero => simpa [searchDown]
  | succ k ih =>
      simp only [searchDown]
      split <;> simp_all

theorem searchDown_lt_next (f : Int → Int) (target : Int) (n : Nat)
    (h0 : f 0 ≤ target) (hn : target < f n) : target < f (searchDown f target n + 1) := by
  induction n with
  | zero => simp only [Nat.cast_zero] at hn; omega
  | succ k ih =>
      simp only [searchDown]
      split
      · rename_i h; push_cast at hn; omega
      · rename_i h; exact ih (by omega)

theorem searchDown_nonneg (f : Int → Int) (target : Int) (n : Nat) :
    0 ≤ searchDown f target n := by
  induction n with
  | zero => simp [searchDown]
  | succ k ih => simp only [searchDown]; split <;> omega

theorem searchDown_lt_bound (f : Int → Int) (target : Int) (n : Nat) (hn : 0 < n) :
    searchDown f target n < n := by
  induction n with
  | zero => omega
  | succ k ih =>
      simp only [searchDown]
      split
      · omega
      · rcases Nat.eq_zero_or_pos k with hk | hk
        · subst hk; simp [searchDown]
        · have := ih hk; omega

/-- A search over a function monotone on `[0, n]` finds the unique
    bracketing index. -/
theorem searchDown_eq_of_bracket (f : Int → Int) (n : Nat)
    (hmono : ∀ a b : Int, 0 ≤ a → a < b → b ≤ n → f a < f b) (target : Int)
    (r : Int) (h0 : 0 ≤ r) (h1 : r < n) (hlo : f r ≤ target) (hhi : target < f (r + 1)) :
    searchDown f target n = r := by
  have h0' : f 0 ≤ target := by
    rcases eq_or_lt_of_le h0 with h | h
    · rwa [h]
    · exact le_trans (le_of_lt (hmono 0 r le_rfl h (by omega))) hlo
  have hfn : target < f n := by
    have h' : r + 1 ≤ (n : Int) := by omega
    rcases eq_or_lt_of_le h' with h | h
    · rwa [h] at hhi
    · exact lt_trans hhi (hmono _ _ (by omega) h le_rfl)
  have hle := searchDown_le f target n h0'
  have hlt := searchDown_lt_next f target n h0' hfn
  have hnn := searchDown_nonneg f target n
  have hbd := searchDown_lt_bound f target n (by omega)
  set s := searchDown f target n with hs
  by_contra hne
  rcases lt_or_gt_of_ne hne with h | h
  · have h' : s + 1 ≤ r := by omega
    rcases eq_or_lt_of_le h' with he | hl
    · rw [he] at hlt; omega
    · have := hmono _ _ (by omega) hl (by omega); omega
  · have h' : r + 1 ≤ s := by omega
    rcases eq_or_lt_of_le h' with he | hl
    · rw [← he] at hle; omega
    · have := hmono _ _ (by omega) hl (by omega); omega

theorem daysInMonth_pos (y mo : Int) : 0 < daysInMonth y mo := by
  unfold daysInMonth; split
  · split <;> omega
  · split <;> omega

theorem daysInMonth_le_31 (y mo : Int) : daysInMonth y mo ≤ 31 := by
  unfold daysInMonth; split
  · split <;> omega
  · split <;> omega

/-- Leap structure is what `daysInMonth` depends on. -/
theorem daysInMonth_congr {y y' : Int} (h : isLeap y = isLeap y') (mo : Int) :
    daysInMonth y mo = daysInMonth y' mo := by
  unfold daysInMonth; rw [h]

theorem cumDaysLeap_congr {y y' : Int} (h : isLeap y = isLeap y') (mo : Int) :
    cumDaysLeap y mo = cumDaysLeap y' mo := by
  unfold cumDaysLeap; rw [h]

/-- Stepping one month forward adds that month's length. -/
theorem cumDaysLeap_succ (y mo : Int) (h0 : 0 ≤ mo) (h1 : mo ≤ 11) :
    cumDaysLeap y (mo + 1) = cumDaysLeap y mo + daysInMonth y mo := by
  have hc : mo = 0 ∨ mo = 1 ∨ mo = 2 ∨ mo = 3 ∨ mo = 4 ∨ mo = 5 ∨ mo = 6 ∨ mo = 7 ∨
      mo = 8 ∨ mo = 9 ∨ mo = 10 ∨ mo = 11 := by omega
  rcases hc with h | h | h | h | h | h | h | h | h | h | h | h <;>
    subst h <;> simp only [cumDaysLeap, cumDays, daysInMonth] <;> norm_num <;>
    rcases Bool.eq_false_or_eq_true (isLeap y) with hl | hl <;> simp [hl]

theorem cumDaysLeap_strictMonoOn (y : Int) :
    ∀ a b : Int, 0 ≤ a → a < b → b ≤ 12 → cumDaysLeap y a < cumDaysLeap y b := by
  refine strictMonoOnInt _ 0 12 (fun m hm0 hm1 => ?_)
  rw [cumDaysLeap_succ y m hm0 (by omega)]
  have := daysInMonth_pos y m
  omega

theorem cumDaysLeap_zero (y : Int) : cumDaysLeap y 0 = 0 := by
  simp [cumDaysLeap, cumDays]

/-- One year worth of months. -/
theorem cumDaysLeap_twelve (y : Int) :
    cumDaysLeap y 12 = if isLeap y then 366 else 365 := by
  simp only [cumDaysLeap, cumDays]
  norm_num
  rcases Bool.eq_false_or_eq_true (isLeap y) with hl | hl <;> simp [hl]

theorem daysToYear_zero : daysToYear 0 = 0 := by decide

theorem daysToYear_400 : daysToYear 400 = 146097 := by decide

/-- A year has at least 365 days. -/
theorem daysToYear_ge {y : Int} (h : 0 ≤ y) : 365 * y ≤ daysToYear y := by
  unfold daysToYear; omega

/-- The search window suffices: the target day lies below its upper end. -/
theorem yearInEraFuel_spec (r : Int) (h0 : 0 ≤ r) (h1 : r < 146097) :
    0 < yearInEraFuel r ∧ (yearInEraFuel r : Int) ≤ 400 ∧
      r < daysToYear (yearInEraFuel r : Int) := by
  unfold yearInEraFuel
  rcases le_or_lt 400 (r / 365 + 2) with h | h
  · have hm : min 400 (r / 365 + 2) = 400 := by omega
    rw [hm]
    refine ⟨by omega, by omega, ?_⟩
    have : ((400 : Int).toNat : Int) = 400 := by omega
    rw [this, daysToYear_400]; omega
  · have hm : min 400 (r / 365 + 2) = r / 365 + 2 := by omega
    rw [hm]
    have hc : (((r / 365 + 2).toNat : Nat) : Int) = r / 365 + 2 := by omega
    refine ⟨by omega, by omega, ?_⟩
    rw [hc]
    have := daysToYear_ge (show 0 ≤ r / 365 + 2 by omega)
    omega

/-- Bracketing of the year-in-era search, for `0 ≤ r < 146097`. -/
theorem yearInEra_spec (r : Int) (h0 : 0 ≤ r) (h1 : r < 146097) :
    0 ≤ yearInEra r ∧ yearInEra r ≤ 399 ∧ daysToYear (yearInEra r) ≤ r ∧
      r < daysToYear (yearInEra r + 1) := by
  obtain ⟨hf0, hf400, hfr⟩ := yearInEraFuel_spec r h0 h1
  have hz : daysToYear 0 ≤ r := by rw [daysToYear_zero]; omega
  have hle := searchDown_le daysToYear r (yearInEraFuel r) hz
  have hlt := searchDown_lt_next daysToYear r (yearInEraFuel r) hz hfr
  have hnn := searchDown_nonneg daysToYear r (yearInEraFuel r)
  have hbd := searchDown_lt_bound daysToYear r (yearInEraFuel r) (by omega)
  simp only [yearInEra]
  exact ⟨hnn, by omega, hle, hlt⟩

/-- The civil fields of any absolute day number are in range and reconstruct
    the day number. -/
theorem civil_correct (z : Int) :
    0 ≤ civilMonth0 z ∧ civilMonth0 z ≤ 11 ∧ 1 ≤ civilDay z ∧
      civilDay z ≤ daysInMonth (civilYear z) (civilMonth0 z) ∧
      daysToYear (civilYear z) + cumDaysLeap (civilYear z) (civilMonth0 z)
        + (civilDay z - 1) = z := by
  set k := z / 146097 with hk
  set r := z % 146097 with hr
  have hr0 : 0 ≤ r := by omega
  have hr1 : r < 146097 := by omega
  obtain ⟨hu0, hu1, hulo, huhi⟩ := yearInEra_spec r hr0 hr1
  set u := yearInEra r with hu
  set doy := r - daysToYear u with hdoy
  have hylen : daysToYear (u + 1) = daysToYear u + (if isLeap u then 366 else 365) :=
    daysToYear_succ u
  have hyz : civilYear z = 400 * k + u := rfl
  have hleap : isLeap (civilYear z) = isLeap u := by rw [hyz]; exact isLeap_era k u
  have hdoy0 : 0 ≤ doy := by omega
  have h366 := cumDaysLeap_twelve (civilYear z)
  rw [hleap] at h366
  rw [hylen] at huhi
  have hdoy1 : doy < cumDaysLeap (civilYear z) 12 := by
    rcases Bool.eq_false_or_eq_true (isLeap u) with hl | hl <;>
      rw [hl] at h366 huhi <;> simp at h366 huhi <;> omega
  have hcdoy : civilDayOfYear z = doy := rfl
  have h0' : cumDaysLeap (civilYear z) 0 ≤ civilDayOfYear z := by
    rw [cumDaysLeap_zero, hcdoy]; omega
  have h12' : civilDayOfYear z < cumDaysLeap (civilYear z) ((12 : Nat) : Int) := by
    have hc : ((12 : Nat) : Int) = (12 : Int) := by norm_num
    rw [hc, hcdoy]; exact hdoy1
  have hle := searchDown_le (cumDaysLeap (civilYear z)) (civilDayOfYear z) 12 h0'
  have hlt := searchDown_lt_next (cumDaysLeap (civilYear z)) (civilDayOfYear z) 12 h0' h12'
  have hnn := searchDown_nonneg (cumDaysLeap (civilYear z)) (civilDayOfYear z) 12
  have hbd := searchDown_lt_bound (cumDaysLeap (civilYear z)) (civilDayOfYear z) 12 (by omega)
  have hmo : civilMonth0 z = searchDown (cumDaysLeap (civilYear z)) (civilDayOfYear z) 12 := rfl
  rw [← hmo] at hle hlt hnn hbd
  set mo := civilMonth0 z with hmoset
  have hmo0 : 0 ≤ mo := hnn
  have hmo1 : mo ≤ 11 := by omega
  have hstep : cumDaysLeap (civilYear z) (mo + 1)
      = cumDaysLeap (civilYear z) mo + daysInMonth (civilYear z) mo :=
    cumDaysLeap_succ _ mo hmo0 hmo1
  have hd : civilDay z = civilDayOfYear z - cumDaysLeap (civilYear z) mo + 1 := rfl
  have hrec : daysToYear (civilYear z) = 146097 * k + daysToYear u := by
    rw [hyz]; exact daysToYear_era k u
  refine ⟨hmo0, hmo1, by rw [hd]; omega, by rw [hd]; omega, ?_⟩
  rw [hd, hrec, hcdoy]
  omega

theorem daysToYear_nonneg {u : Int} (h : 0 ≤ u) : 0 ≤ daysToYear u := by
  rcases eq_or_lt_of_le h with h | h
  · rw [← h, daysToYear_zero]
  · have := daysToYear_strictMono h
    rw [daysToYear_zero] at this
    omega

theorem cumDays_nonneg (mo : Int) : 0 ≤ cumDays mo := by
  unfold cumDays
  repeat first | omega | (split; · omega)

theorem cumDaysLeap_nonneg (y mo : Int) : 0 ≤ cumDaysLeap y mo := by
  have h := cumDays_nonneg mo
  unfold cumDaysLeap
  split <;> omega

/-- The extraction functions recover the fields of any in-range civil date. -/
theorem civil_roundtrip (y mo d : Int) (hmo0 : 0 ≤ mo) (hmo1 : mo ≤ 11)
    (hd0 : 1 ≤ d) (hd1 : d ≤ daysInMonth y mo) :
    civilYear (monthStartDay (12 * y + mo) + (d - 1)) = y ∧
      civilMonth0 (monthStartDay (12 * y + mo) + (d - 1)) = mo ∧
      civilDay (monthStartDay (12 * y + mo) + (d - 1)) = d := by
  have hMdiv : (12 * y + mo) / 12 = y := by omega
  have hMmod : (12 * y + mo) % 12 = mo := by omega
  set z := monthStartDay (12 * y + mo) + (d - 1) with hz
  have hzval : z = daysToYear y + cumDaysLeap y mo + (d - 1) := by
    rw [hz]; unfold monthStartDay; rw [hMdiv, hMmod]
  set k := y / 400 with hk
  set u := y % 400 with hu
  have hyku : y = 400 * k + u := by omega
  have hu0 : 0 ≤ u := by omega
  have hu1 : u ≤ 399 := by omega
  have hera : daysToYear y = 146097 * k + daysToYear u := by rw [hyku]; exact daysToYear_era k u
  have hleap : isLeap y = isLeap u := by rw [hyku]; exact isLeap_era k u
  have hcum : cumDaysLeap y mo = cumDaysLeap u mo := cumDaysLeap_congr hleap mo
  have hdim : daysInMonth y mo = daysInMonth u mo := daysInMonth_congr hleap mo
  set r := daysToYear u + cumDaysLeap u mo + (d - 1) with hr
  have hzr : z = 146097 * k + r := by rw [hzval, hera, hcum]; ring
  have hty0 : 0 ≤ daysToYear u := daysToYear_nonneg hu0
  have hcum0 : 0 ≤ cumDaysLeap u mo := cumDaysLeap_nonneg u mo
  have hstep : cumDaysLeap u (mo + 1) = cumDaysLeap u mo + daysInMonth u mo :=
    cumDaysLeap_succ u mo hmo0 hmo1
  have h12 : cumDaysLeap u (mo + 1) ≤ cumDaysLeap u 12 := by
    rcases eq_or_lt_of_le (show mo + 1 ≤ (12 : Int) by omega) with h | h
    · rw [h]
    · exact le_of_lt (cumDaysLeap_strictMonoOn u (mo + 1) 12 (by omega) h le_rfl)
  have hylen := daysToYear_succ u
  have h366 := cumDaysLeap_twelve u
  have hrlt : r < daysToYear (u + 1) := by
    rcases Bool.eq_false_or_eq_true (isLeap u) with hl | hl <;>
      rw [hl] at hylen h366 <;> simp at hylen h366 <;> omega
  have hr0 : 0 ≤ r := by omega
  have hr1 : r < 146097 := by
    have h400 : daysToYear (u + 1) ≤ daysToYear 400 := daysToYear_mono (by omega)
    rw [daysToYear_400] at h400
    omega
  have hzdiv : z / 146097 = k := by omega
  have hzmod : z % 146097 = r := by omega
  have hyie : yearInEra r = u := by
    have hge := daysToYear_ge hu0
    have hfeq : (yearInEraFuel r : Int) = min 400 (r / 365 + 2) := by
      unfold yearInEraFuel; omega
    refine searchDown_eq_of_bracket daysToYear (yearInEraFuel r)
      (fun a b _ hab _ => daysToYear_strictMono hab) r u hu0 ?_ (by omega) hrlt
    rw [hfeq]
    omega
  have hcy : civilYear z = y := by
    unfold civilYear
    rw [hzdiv, hzmod, hyie]
    omega
  have hcdy : civilDayOfYear z = cumDaysLeap u mo + (d - 1) := by
    unfold civilDayOfYear
    rw [hzmod, hyie]
    omega
  have hcmo : civilMonth0 z = mo := by
    have hdef : civilMonth0 z = searchDown (cumDaysLeap (civilYear z)) (civilDayOfYear z) 12 :=
      rfl
    rw [hdef, hcy, hcdy]
    refine searchDown_eq_of_bracket (cumDaysLeap y) 12
      (fun a b ha hab hb => cumDaysLeap_strictMonoOn y a b ha hab (by exact_mod_cast hb))
      _ mo hmo0 (by omega) ?_ ?_
    · rw [hcum]; omega
    · rw [cumDaysLeap_congr hleap, hstep]; omega
  refine ⟨hcy, hcmo, ?_⟩
  have hdd : civilDay z = civilDayOfYear z - cumDaysLeap (civilYear z) (civilMonth0 z) + 1 := rfl
  rw [hdd, hcy, hcmo, hcdy, hcum]
  omega

/-- Stepping one month forward in the month index adds that month's length. -/
theorem monthStartDay_succ (M : Int) :
    monthStartDay (M + 1)
      = monthStartDay M + daysInMonth (M / 12) (M % 12) := by
  unfold monthStartDay
  rcases eq_or_lt_of_le (show M % 12 ≤ 11 by omega) with h11 | h11
  · have hdiv : (M + 1) / 12 = M / 12 + 1 := by omega
    have hmod : (M + 1) % 12 = 0 := by omega
    rw [hdiv, hmod, daysToYear_succ, cumDaysLeap_zero]
    have h334 : cumDaysLeap (M / 12) (M % 12) = 334 + (if isLeap (M / 12) then 1 else 0) := by
      rw [h11]
      simp only [cumDaysLeap, cumDays]
      norm_num
    have hd31 : daysInMonth (M / 12) (M % 12) = 31 := by
      rw [h11]; simp [daysInMonth]
    rw [h334, hd31]
    split <;> omega
  · have hdiv : (M + 1) / 12 = M / 12 := by omega
    have hmod : (M + 1) % 12 = M % 12 + 1 := by omega
    rw [hdiv, hmod, cumDaysLeap_succ _ _ (by omega) (by omega)]
    ring

theorem monthStartDay_strictMono {a b : Int} (h : a < b) :
    monthStartDay a < monthStartDay b := by
  refine strictMonoOnInt monthStartDay a b (fun m _ _ => ?_) a b le_rfl h le_rfl
  rw [monthStartDay_succ]
  have := daysInMonth_pos (m / 12) (m % 12)
  omega

/-- Fields of a valid instant: `specOfTime` inverts `DateSpec.toTime`. -/
theorem specOfTime_toTime (s : DateSpec) (h : s.Valid) : specOfTime s.toTime = s := by
  obtain ⟨y, mo, d, hh, mm, ss⟩ := s
  obtain ⟨h1, h2, h3, h4, h5, h6, h7, h8, h9, h10⟩ := h
  simp only at h1 h2 h3 h4 h5 h6 h7 h8 h9 h10
  have ht : DateSpec.toTime ⟨y, mo, d, hh, mm, ss⟩
      = (monthStartDay (12 * y + mo) + (d - 1) - epochDay) * msPerDay
        + hh * msPerHour + mm * msPerMinute + ss * 1000 := rfl
  obtain ⟨hcy, hcmo, hcd⟩ := civil_roundtrip y mo d h1 h2 h3 h4
  set t := DateSpec.toTime ⟨y, mo, d, hh, mm, ss⟩ with htt
  have hday : dayNumOfTime t = monthStartDay (12 * y + mo) + (d - 1) := by
    unfold dayNumOfTime
    rw [ht]
    simp only [msPerDay, msPerHour, msPerMinute, epochDay]
    omega
  have hH : getUTCHours t = hh := by
    rw [ht]; simp only [getUTCHours, msPerDay, msPerHour, msPerMinute]; omega
  have hM : getUTCMinutes t = mm := by
    rw [ht]; simp only [getUTCMinutes, msPerDay, msPerHour, msPerMinute]; omega
  have hS : getUTCSeconds t = ss := by
    rw [ht]; simp only [getUTCSeconds, msPerDay, msPerHour, msPerMinute]; omega
  simp only [specOfTime, getUTCFullYear, getUTCMonth, getUTCDate, hday, hcy, hcmo, hcd,
    hH, hM, hS]

/-! ## DateMath utilities (`web/js/util/util.js`, `web/js/modules/date/util.js`)

These helpers are called by the resolver but their source lies outside the
supplied files, so they are modelled from the spec where noted. -/

/-- Under the UTC runtime convention `getTimezoneOffset()` is `0`, so
    `util.getTimezoneOffsetDate` is the identity on instants. -/
def getTimezoneOffsetDate (t : Int) : Int := t

/-- The JS local-date constructor `new Date(y, mo, d)` under the UTC runtime. -/
def mkDate (y mo d : Int) : Int := jsUTC y mo d 0 0 0

/-- Modelled from the spec: `util.yearDiff`, a DateMath difference-in-years
    primitive (source not among the supplied files). Only loop iteration
    counts depend on it; the theorems below are robust to its rounding. -/
def yearDiff (t1 t2 : Int) : Int := getUTCFullYear t2 - getUTCFullYear t1

/-- Modelled from the spec: `util.monthDiff`, difference in calendar months. -/
def monthDiff (t1 t2 : Int) : Int :=
  12 * (getUTCFullYear t2 - getUTCFullYear t1) + (getUTCMonth t2 - getUTCMonth t1)

/-- Modelled from the spec: `util.dayDiff`, difference in whole days. -/
def dayDiff (t1 t2 : Int) : Int := (t2 - t1) / msPerDay

/-- Modelled from the spec: `util.minuteDiff`, difference in whole minutes. -/
def minuteDiff (t1 t2 : Int) : Int := (t2 - t1) / msPerMinute

/-- The `Number(string)` conversion as it applies to the `dateInterval`
    configuration strings: a nonempty digit string is its decimal value,
    anything else is `NaN` (modelled as `none`). -/
def jsNumber (s : String) : Option Int :=
  if s.length ≠ 0 ∧ s.toList.all Char.isDigit then
    some (s.toList.foldl (fun a c => 10 * a + ((c.toNat : Int) - 48)) 0)
  else none

/-- Integer ceiling division by a positive divisor, the exact value of
    `Math.ceil(a / b)` on integer arguments. -/
def ceilDivInt (a b : Int) : Int := -((-a) / b)

/-- The `Date.prototype.setMinutes` result: the minutes field is replaced,
    every other component (including seconds and milliseconds) is kept. -/
def jsSetMinutes (t m : Int) : Int := t - getUTCMinutes t * msPerMinute + m * msPerMinute

/-! ## Resolver helpers of `modules/layers/util.js` -/

inductive Period
  | yearly
  | monthly
  | daily
  | subdaily
deriving DecidableEq, Repr

/-- One entry of a layer's `dateRanges` configuration. The two date strings
    are modelled as parsed field records; `dateInterval` is kept as the raw
    string because `datesInDateRanges` compares it with `=== '1'` before ever
    converting it with `Number`. -/
structure DateRange where
  startDate : DateSpec
  endDate : DateSpec
  dateInterval : String
deriving DecidableEq, Repr

/-- The parts of a layer definition the resolver reads. -/
structure LayerDef where
  period : Period
  dateRanges : Option (List DateRange)
  ongoing : Bool
  futureTime : Option String
deriving DecidableEq, Repr

/-- Source `getRevisedMaxEndDate` (lines 139-150). -/
def getRevisedMaxEndDate (minDate maxEndDate startDateLimit endDateLimit : Int) : Int :=
  let frontDateWithinRange := startDateLimit ≥ minDate ∧ startDateLimit ≤ maxEndDate
  let backDateWithinRange := endDateLimit ≤ maxEndDate ∧ endDateLimit ≥ minDate
  if frontDateWithinRange ∨ backDateWithinRange then endDateLimit else maxEndDate

/-- Inner loop of `getDateArrayLastDateInOrder` on the reversed array: pop
    trailing dates `≥ timeUnit`, then push `timeUnit` in front of the first
    smaller one; if every date is popped nothing is pushed (the source's
    `endDateFound` is never set). -/
def popPushRev (timeUnit : Int) : List Int → List Int
  | [] => []
  | x :: rest => if timeUnit ≤ x then popPushRev timeUnit rest else timeUnit :: x :: rest

/-- Source `getDateArrayLastDateInOrder` (lines 160-180). On an empty array
    the JS comparison `timeUnit < undefined` is false and the copy is
    returned unchanged. -/
def getDateArrayLastDateInOrder (timeUnit : Int) (dateArray : List Int) : List Int :=
  match dateArray.getLast? with
  | none => dateArray
  | some last =>
      if timeUnit < last then (popPushRev timeUnit dateArray.reverse).reverse else dateArray

/-- Source `getMinStartDate` (lines 195-218): step `interval` units from the
    range start until exceeding `startDateLimit`; the preceding stepped
    instant becomes the revised minimum start (or `none` when the first step
    already exceeds it). State is `(minStartDate, prevDate)`. -/
def getMinStartDate (timeDiff : Int) (period : Period) (interval : Int)
    (startDateLimit minYear minMonth minDay : Int) : Option Int :=
  ((List.range (timeDiff + 2).toNat).foldl
    (fun (st : Option Int × Option Int) (i : Nat) =>
      match st.1 with
      | some _ => st
      | none =>
          let timeUnit :=
            match period with
            | Period.monthly => mkDate minYear (minMonth + (i : Int) * interval) minDay
            | _ => mkDate minYear minMonth (minDay + (i : Int) * interval)
          if timeUnit > startDateLimit then (st.2, st.2) else (none, some timeUnit))
    (none, none)).1

/-- Source `addSubDatesBasedOnPeriod` (lines 230-257): the period unit
    before, at, and after the current date, anchored to the range start's
    month/day fields. For `subdaily` the source leaves all three `undefined`,
    which makes the caller throw; this is modelled as `none`. -/
def addSubDatesBasedOnPeriod (period : Period)
    (minCurrentYear minCurrentMonth minCurrentDay minStartMonth minStartDay : Int) :
    Option (Int × Int × Int) :=
  match period with
  | Period.yearly =>
      some (mkDate (minCurrentYear - 1) minStartMonth minStartDay,
        mkDate minCurrentYear minStartMonth minStartDay,
        mkDate (minCurrentYear + 1) minStartMonth minStartDay)
  | Period.monthly =>
      some (mkDate minCurrentYear (minCurrentMonth - 1) minStartDay,
        mkDate minCurrentYear minCurrentMonth minStartDay,
        mkDate minCurrentYear (minCurrentMonth + 1) minStartDay)
  | Period.daily =>
      some (mkDate minCurrentYear minCurrentMonth (minCurrentDay - 1),
        mkDate minCurrentYear minCurrentMonth minCurrentDay,
        mkDate minCurrentYear minCurrentMonth (minCurrentDay + 1))
  | Period.subdaily => none

/-- Source `getPrevCurrentNextDates` (lines 266-289): the previous date is
    kept only when `≥ breakMinDateTime`, the current date unconditionally,
    the next only when `≤ breakMaxDateTime`. -/
def getPrevCurrentNextDates (currentDateZeroed dayBeforeCurrent dayAfterCurrent
    breakMinDateTime breakMaxDateTime : Int) : List Int :=
  (if dayBeforeCurrent ≥ breakMinDateTime then [getTimezoneOffsetDate dayBeforeCurrent] else [])
    ++ [getTimezoneOffsetDate currentDateZeroed]
    ++ (if dayAfterCurrent ≤ breakMaxDateTime then [getTimezoneOffsetDate dayAfterCurrent] else [])

/-- Source `getBreakMaxDate` (lines 299-316): the range end advanced by one
    period unit. The source returns `undefined` for `subdaily` (modelled as
    `none`), on which the caller throws. -/
def getBreakMaxDate (period : Period) (rangeEndDate : Int) : Option Int :=
  let y := getUTCFullYear rangeEndDate
  let mo := getUTCMonth rangeEndDate
  let d := getUTCDate rangeEndDate
  match period with
  | Period.yearly => some (mkDate (y + 1) mo d)
  | Period.monthly => some (mkDate y (mo + 1) d)
  | Period.daily => some (mkDate y mo (d + 1))
  | Period.subdaily => none

/-- Source `getLimitedDateRange` (lines 327-385), the limited mode used for
    single-range interval-`'1'` layers: previous/current/next dates when the
    current date lies in the closed interval `[breakMin, breakMax]`, an empty
    array otherwise. `none` models the `TypeError` the source throws on a
    `subdaily` layer (or on missing range data). -/
def getLimitedDateRange (defn : LayerDef) (currentDate : Int) : Option (List Int) :=
  match defn.dateRanges with
  | some (dateRange :: _) =>
      let rangeStartDate := dateRange.startDate.toTime
      let rangeEndDate := dateRange.endDate.toTime
      let breakMinDateTime := rangeStartDate
      match getBreakMaxDate defn.period rangeEndDate with
      | none => none
      | some breakMaxDate =>
          if currentDate ≥ breakMinDateTime ∧ currentDate ≤ breakMaxDate then
            match addSubDatesBasedOnPeriod defn.period (getUTCFullYear currentDate)
                (getUTCMonth currentDate) (getUTCDate currentDate)
                (getUTCMonth rangeStartDate) (getUTCDate rangeStartDate) with
            | some (dayBeforeCurrent, currentDateZeroed, dayAfterCurrent) =>
                some (getPrevCurrentNextDates currentDateZeroed dayBeforeCurrent
                  dayAfterCurrent breakMinDateTime breakMaxDate)
            | none => none
          else some []
  | _ => none

/-- Source `getYearDateRange` (lines 398-420). A `NaN` interval (`none`)
    makes every numeric guard false, so nothing is appended. -/
def getYearDateRange (currentDateTime minDate maxDate : Int) (interval : Option Int)
    (dateArray : List Int) : List Int :=
  match interval with
  | none => dateArray
  | some k =>
      let maxYearDate := mkDate (getUTCFullYear maxDate + k) (getUTCMonth maxDate)
        (getUTCDate maxDate)
      if currentDateTime ≥ minDate ∧ currentDateTime ≤ maxYearDate then
        let yearDifference := yearDiff minDate maxYearDate
        (List.range (yearDifference + 2).toNat).foldl (fun arr (i : Nat) =>
          let year := mkDate (getUTCFullYear minDate + (i : Int) * k) (getUTCMonth minDate)
            (getUTCDate minDate)
          if year < maxYearDate then arr ++ [getTimezoneOffsetDate year] else arr) dateArray
      else dateArray

/-- Source `getMonthDateRange` (lines 429-488). `limits.isSome` is the
    source's `rangeLimitsProvided`; an out-of-range current date leaves the
    month difference `undefined` and the loop does not run. -/
def getMonthDateRange (limits : Option (Int × Int)) (currentDateTime minDate maxDate : Int)
    (dateIntervalNum : Option Int) (dateArray : List Int) : List Int :=
  match dateIntervalNum with
  | none => dateArray
  | some k =>
      let minYear := getUTCFullYear minDate
      let minMonth := getUTCMonth minDate
      let minDay := getUTCDate minDate
      let maxMonthDate := getTimezoneOffsetDate
        (mkDate (getUTCFullYear maxDate) (getUTCMonth maxDate + k) (getUTCDate maxDate))
      let maxEndDateTime := match limits with
        | some (sl, el) => getRevisedMaxEndDate minDate maxMonthDate sl el
        | none => maxMonthDate
      if currentDateTime ≥ minDate ∧ currentDateTime ≤ maxEndDateTime then
        let monthDifference := ceilDivInt (monthDiff minDate maxMonthDate) k
        let minStartMonthDate : Option Int :=
          match limits with
          | some (sl, _) =>
              if monthDifference = 0 then none
              else getMinStartDate monthDifference Period.monthly k sl minYear minMonth minDay
          | none => none
        (List.range (monthDifference + 2).toNat).foldl (fun arr (i : Nat) =>
          let month := getTimezoneOffsetDate (mkDate minYear (minMonth + (i : Int) * k) minDay)
          if month < maxEndDateTime then
            match limits with
            | some _ =>
                let arr2 := if arr.length > 0 then getDateArrayLastDateInOrder month arr
                  else arr
                match minStartMonthDate with
                | some ms =>
                    if month = ms ∨ (month > ms ∧ month < maxMonthDate) then arr2 ++ [month]
                    else arr2
                | none => arr2 ++ [month]
            | none => arr ++ [month]
          else arr) dateArray
      else dateArray

/-- Source `getDayDateRange` (lines 497-555). -/
def getDayDateRange (limits : Option (Int × Int)) (currentDateTime minDate maxDate : Int)
    (dateIntervalNum : Option Int) (dateArray : List Int) : List Int :=
  match dateIntervalNum with
  | none => dateArray
  | some k =>
      let minYear := getUTCFullYear minDate
      let minMonth := getUTCMonth minDate
      let minDay := getUTCDate minDate
      let maxDayDate := mkDate (getUTCFullYear maxDate) (getUTCMonth maxDate)
        (getUTCDate maxDate + k)
      let maxEndDate := match limits with
        | some (sl, el) => getRevisedMaxEndDate minDate maxDayDate sl el
        | none => maxDayDate
      if currentDateTime ≥ minDate ∧ currentDateTime ≤ maxEndDate then
        let dayDifference := ceilDivInt (dayDiff minDate maxEndDate) k
        let minStartDayDate : Option Int :=
          match limits with
          | some (sl, _) =>
              if dayDifference = 0 then none
              else getMinStartDate dayDifference Period.daily k sl minYear minMonth minDay
          | none => none
        (List.range (dayDifference + 2).toNat).foldl (fun arr (i : Nat) =>
          let day := getTimezoneOffsetDate (mkDate minYear minMonth (minDay + (i : Int) * k))
          if day < maxEndDate then
            match limits with
            | some _ =>
                let arr2 := if arr.length > 0 then getDateArrayLastDateInOrder day arr else arr
                match minStartDayDate with
                | some ms =>
                    if day = ms ∨ (day > ms ∧ day < maxDayDate) then arr2 ++ [day] else arr2
                | none => arr2 ++ [day]
            | none => arr ++ [day]
          else arr) dateArray
      else dateArray

/-- Source `getSubdailyDateRange` (lines 564-657). The loop steps by
    `dateIntervalNum` minutes; a non-positive interval would make the JS
    `for` loop diverge (no real configuration has one), modelled by leaving
    the array unchanged. -/
def getSubdailyDateRange (limits : Option (Int × Int)) (currentDateTime minDate maxDate : Int)
    (dateIntervalNum : Option Int) (dateArray : List Int) : List Int :=
  match dateIntervalNum with
  | none => dateArray
  | some k =>
      if k ≤ 0 then dateArray
      else
        let minMinute := getUTCMinutes minDate
        let maxMinuteDate0 := jsUTC (getUTCFullYear maxDate) (getUTCMonth maxDate)
          (getUTCDate maxDate) (getUTCHours maxDate) (getUTCMinutes maxDate + k) 0
        let parts : Int × Int :=
          match limits with
          | some (sl, el) =>
              let minMinuteDateMinusIntervalOffset := getTimezoneOffsetDate
                (jsUTC (getUTCFullYear minDate) (getUTCMonth minDate) (getUTCDate minDate)
                  (getUTCHours minDate) (getUTCMinutes minDate - k) 0)
              let hourBeforeStartDateLimit := jsSetMinutes sl minMinute - 60 * msPerMinute
              let hourAfterEndDateLimit := jsSetMinutes el minMinute + 60 * msPerMinute
              let minMinuteDate :=
                if hourBeforeStartDateLimit < minDate then hourBeforeStartDateLimit
                else if hourBeforeStartDateLimit > minMinuteDateMinusIntervalOffset then
                  hourBeforeStartDateLimit
                else minDate
              (minMinuteDate, hourAfterEndDateLimit)
          | none =>
              let currentSetMinutes := jsSetMinutes currentDateTime minMinute
              let hourBeforeStartDateLimit := currentSetMinutes - 60 * msPerMinute
              let hourAfterEndDateLimit := currentSetMinutes + 60 * msPerMinute
              let minMinuteDate :=
                if hourBeforeStartDateLimit < minDate then minDate
                else hourBeforeStartDateLimit
              (minMinuteDate, hourAfterEndDateLimit)
        let minMinuteDate := parts.1
        let maxMinuteDate :=
          if parts.2 > maxMinuteDate0 then maxMinuteDate0 else parts.2
        let currentDateTimeCheck := currentDateTime
        if currentDateTimeCheck ≥ minMinuteDate ∧ currentDateTimeCheck ≤ maxMinuteDate then
          let minuteDifference := minuteDiff minMinuteDate maxMinuteDate
          let iterCount : Nat :=
            if minuteDifference + 1 < 0 then 0 else ((minuteDifference + 1) / k + 1).toNat
          (List.range iterCount).foldl (fun arr (j : Nat) =>
            let subdailyTime := jsUTC (getUTCFullYear minMinuteDate) (getUTCMonth minMinuteDate)
              (getUTCDate minMinuteDate) (getUTCHours minMinuteDate)
              (getUTCMinutes minMinuteDate + (j : Int) * k) 0
            let notPastLast : Bool :=
              match arr.getLast? with
              | some last => decide (subdailyTime > last)
              | none => true
            if subdailyTime ≥ minMinuteDate ∧ notPastLast = true then arr ++ [subdailyTime]
            else arr)
            dateArray
        else dateArray

/-- The `Date.prototype.setMonth` result: the 0-based month field is
    replaced (with rollover), every other component is kept. -/
def jsSetMonth (t m : Int) : Int :=
  jsUTC (getUTCFullYear t) m (getUTCDate t) (getUTCHours t) (getUTCMinutes t)
    (getUTCSeconds t) + t % 1000

/-- The `Date.prototype.setFullYear` result. -/
def jsSetFullYear (t y : Int) : Int :=
  jsUTC y (getUTCMonth t) (getUTCDate t) (getUTCHours t) (getUTCMinutes t)
    (getUTCSeconds t) + t % 1000

/-- The civil year of a day inside year `y`. -/
theorem civilYear_inYear (y off : Int) (h0 : 0 ≤ off)
    (h1 : off < (if isLeap y then 366 else 365)) : civilYear (daysToYear y + off) = y := by
  set k := y / 400 with hk
  set u := y % 400 with hu
  have hyku : y = 400 * k + u := by omega
  have hu0 : 0 ≤ u := by omega
  have hu1 : u ≤ 399 := by omega
  have hera : daysToYear y = 146097 * k + daysToYear u := by rw [hyku]; exact daysToYear_era k u
  have hleap : isLeap y = isLeap u := by rw [hyku]; exact isLeap_era k u
  set z := daysToYear y + off with hz
  set r := daysToYear u + off with hr
  have hylen := daysToYear_succ u
  have hty0 : 0 ≤ daysToYear u := daysToYear_nonneg hu0
  have hrlt : r < daysToYear (u + 1) := by rw [hylen, ← hleap]; omega
  have hr0 : 0 ≤ r := by omega
  have hr1 : r < 146097 := by
    have h400 : daysToYear (u + 1) ≤ daysToYear 400 := daysToYear_mono (by omega)
    rw [daysToYear_400] at h400
    omega
  have hzr : z = 146097 * k + r := by rw [hz, hr, hera]; ring
  have hzdiv : z / 146097 = k := by omega
  have hzmod : z % 146097 = r := by omega
  have hyie : yearInEra r = u := by
    have hge := daysToYear_ge hu0
    have hfeq : (yearInEraFuel r : Int) = min 400 (r / 365 + 2) := by
      unfold yearInEraFuel; omega
    refine searchDown_eq_of_bracket daysToYear (yearInEraFuel r)
      (fun a b _ hab _ => daysToYear_strictMono hab) r u hu0 ?_ (by omega) hrlt
    omega
  unfold civilYear
  rw [hzdiv, hzmod, hyie]
  omega

/-- Cumulative month starts stay below the year length. -/
theorem cumDaysLeap_le_11 (y mo : Int) (h0 : 0 ≤ mo) (h1 : mo ≤ 11) :
    cumDaysLeap y mo ≤ 334 + (if isLeap y then 1 else 0) := by
  have h334 : cumDaysLeap y 11 = 334 + (if isLeap y then 1 else 0) := by
    simp only [cumDaysLeap, cumDays]
    norm_num
  rcases eq_or_lt_of_le h1 with h | h
  · rw [h, h334]
  · have := cumDaysLeap_strictMonoOn y mo 11 h0 h (by omega)
    omega

/-- Extracting the year of any instant built from in-year fields (month in
    range, day up to 31, time fields in range, sub-second part) gives back
    the year: even a day overflowing its month spills into the next month of
    the same year. -/
theorem getUTCFullYear_jsUTC (y mo d hh mm ss ms : Int)
    (hmo0 : 0 ≤ mo) (hmo1 : mo ≤ 11) (hd0 : 1 ≤ d) (hd1 : d ≤ 31)
    (hh0 : 0 ≤ hh) (hh1 : hh ≤ 23) (hm0 : 0 ≤ mm) (hm1 : mm ≤ 59)
    (hs0 : 0 ≤ ss) (hs1 : ss ≤ 59) (hms0 : 0 ≤ ms) (hms1 : ms < 1000) :
    getUTCFullYear (jsUTC y mo d hh mm ss + ms) = y := by
  have hMdiv : (12 * y + mo) / 12 = y := by omega
  have hMmod : (12 * y + mo) % 12 = mo := by omega
  have hmsd : monthStartDay (12 * y + mo) = daysToYear y + cumDaysLeap y mo := by
    unfold monthStartDay; rw [hMdiv, hMmod]
  have hcum0 : 0 ≤ cumDaysLeap y mo := cumDaysLeap_nonneg y mo
  have hcum1 := cumDaysLeap_le_11 y mo hmo0 hmo1
  have hday : dayNumOfTime (jsUTC y mo d hh mm ss + ms)
      = daysToYear y + (cumDaysLeap y mo + (d - 1)) := by
    unfold dayNumOfTime jsUTC
    rw [hmsd]
    simp only [msPerDay, msPerHour, msPerMinute, epochDay]
    omega
  unfold getUTCFullYear
  rw [hday]
  refine civilYear_inYear y (cumDaysLeap y mo + (d - 1)) (by omega) ?_
  split
  · split at hcum1
    · omega
    · simp_all
  · split at hcum1
    · simp_all
    · omega

/-- Rebuilding an instant from its printed seconds-resolution fields
    truncates exactly the sub-second part. -/
theorem toTime_specOfTime (t : Int) : DateSpec.toTime (specOfTime t) = 1000 * (t / 1000) := by
  obtain ⟨hmo0, hmo1, hd0, hd1, hrec⟩ := civil_correct (dayNumOfTime t)
  have hmo0' : 0 ≤ getUTCMonth t := hmo0
  have hmo1' : getUTCMonth t ≤ 11 := hmo1
  have hrec' : daysToYear (getUTCFullYear t) + cumDaysLeap (getUTCFullYear t) (getUTCMonth t)
      + (getUTCDate t - 1) = dayNumOfTime t := hrec
  have ht : DateSpec.toTime (specOfTime t)
      = (monthStartDay (12 * getUTCFullYear t + getUTCMonth t) + (getUTCDate t - 1) - epochDay)
          * msPerDay + getUTCHours t * msPerHour + getUTCMinutes t * msPerMinute
          + getUTCSeconds t * 1000 := rfl
  have hMdiv : (12 * getUTCFullYear t + getUTCMonth t) / 12 = getUTCFullYear t := by omega
  have hMmod : (12 * getUTCFullYear t + getUTCMonth t) % 12 = getUTCMonth t := by omega
  have hmsd : monthStartDay (12 * getUTCFullYear t + getUTCMonth t) + (getUTCDate t - 1)
      = dayNumOfTime t := by
    unfold monthStartDay
    rw [hMdiv, hMmod]
    exact hrec'
  rw [ht, hmsd]
  unfold dayNumOfTime getUTCHours getUTCMinutes getUTCSeconds
  simp only [msPerDay, msPerHour, msPerMinute, epochDay]
  omega

/-- Truncating to seconds does not change the extracted year. -/
theorem getUTCFullYear_truncSec (t : Int) :
    getUTCFullYear (1000 * (t / 1000)) = getUTCFullYear t := by
  unfold getUTCFullYear dayNumOfTime
  have : 1000 * (t / 1000) / msPerDay = t / msPerDay := by
    simp only [msPerDay]; omega
  rw [this]

/-- The fields printed by `toISOStringSeconds` are always in range. -/
theorem specOfTime_valid (t : Int) : (specOfTime t).Valid := by
  obtain ⟨hmo0, hmo1, hd0, hd1, hrec⟩ := civil_correct (dayNumOfTime t)
  refine ⟨hmo0, hmo1, hd0, hd1, ?_, ?_, ?_, ?_, ?_, ?_⟩ <;>
  · show _ ≤ _
    simp only [specOfTime, getUTCHours, getUTCMinutes, getUTCSeconds,
      msPerHour, msPerMinute]
    omega

/-- Setting the year field of any instant yields that year. -/
theorem getUTCFullYear_jsSetFullYear (t y : Int) :
    getUTCFullYear (jsSetFullYear t y) = y := by
  obtain ⟨hmo0, hmo1, hd0, hd1, hrec⟩ := civil_correct (dayNumOfTime t)
  have hd31 : civilDay (dayNumOfTime t) ≤ 31 := by
    have := daysInMonth_le_31 (civilYear (dayNumOfTime t)) (civilMonth0 (dayNumOfTime t))
    omega
  unfold jsSetFullYear
  refine getUTCFullYear_jsUTC y (getUTCMonth t) (getUTCDate t) (getUTCHours t)
    (getUTCMinutes t) (getUTCSeconds t) (t % 1000) hmo0 hmo1 hd0 hd31 ?_ ?_ ?_ ?_ ?_ ?_ ?_ ?_ <;>
    first
      | omega
      | (simp only [getUTCHours, getUTCMinutes, getUTCSeconds, msPerHour, msPerMinute]; omega)

/-! ## Dynamic range adjustment (`adjustActiveDateRanges`, lines 1456-1537) -/

/-- December 31 of year `y` (the source's `new Date('2021-12-31T00:00:00.000Z')`
    with the year replaced). -/
def endOfYearTime (y : Int) : Int := jsSetFullYear (mkDate 2021 11 31) y

/-- The chain of splices and pushes the `for` loop of
    `adjustActiveDateRanges` performs: the loop re-reads
    `dateRangesModified.length` each iteration, acts only on the current
    last range when its interval exceeds one, and every pushed range is
    itself processed next, so the loop is exactly this recursion on the last
    range. -/
def adjustChain (appNow : Int) (r : DateRange) : List DateRange :=
  let appNowYear := getUTCFullYear appNow
  match jsNumber r.dateInterval with
  | none => [r]
  | some k =>
      if hk : k > 1 then
        let start := r.startDate.toTime
        let startDateYear := getUTCFullYear start
        if heq : startDateYear = appNowYear then
          [{ r with endDate := specOfTime appNow }]
        else if hlt : startDateYear < appNowYear then
          let dynamicStartDate := jsSetFullYear start (startDateYear + 1)
          let endT := r.endDate.toTime
          let endDateYear := getUTCFullYear endT
          let dynamicEndDate0 := jsSetFullYear endT (endDateYear + 1)
          let dynamicEndDate := if dynamicEndDate0 < appNow then dynamicEndDate0 else appNow
          let r1 := if endDateYear < appNowYear then
              { r with endDate := specOfTime (endOfYearTime endDateYear) }
            else r
          if hpush : dynamicStartDate < appNow then
            r1 :: adjustChain appNow
              { startDate := specOfTime dynamicStartDate,
                endDate := specOfTime dynamicEndDate, dateInterval := r.dateInterval }
          else [r1]
        else [r]
      else [r]
termination_by (getUTCFullYear appNow + 1 - getUTCFullYear r.startDate.toTime).toNat
decreasing_by
  rw [toTime_specOfTime, getUTCFullYear_truncSec, getUTCFullYear_jsSetFullYear]
  have hbe : getUTCFullYear start = getUTCFullYear r.startDate.toTime := rfl
  omega

/-- The whole loop of `applyDateRangeAdjustment`: every range except the
    last is left untouched. -/
def adjustRanges (appNow : Int) (rs : List DateRange) : List DateRange :=
  match rs.getLast? with
  | none => []
  | some r => rs.dropLast ++ adjustChain appNow r

/-- Source `applyDateRangeAdjustment` inside `adjustActiveDateRanges`
    (lines 1458-1534), as a pure function on one layer. -/
def applyDateRangeAdjustment (appNow : Int) (layer : LayerDef) : LayerDef :=
  match layer.dateRanges with
  | none => layer
  | some rs =>
      if ¬layer.ongoing ∨ layer.period = Period.subdaily then layer
      else { layer with dateRanges := some (adjustRanges appNow rs) }

/-- Source `adjustActiveDateRanges` (lines 1456-1537), reimplemented as a
    pure function over the layer list (the source mutates each layer of the
    `layers` object in place). -/
def adjustActiveDateRanges (layers : List LayerDef) (appNow : Int) : List LayerDef :=
  layers.map (applyDateRangeAdjustment appNow)

/-- Mutable loop state of `datesInDateRanges`. -/
structure ResolveState where
  dateArray : List Int
  currentDate : Int
  hitMaxLimitOfRange : Bool
  runningMinDate : Option Int

/-- One iteration of the `lodashEach` over `dateRanges` in
    `datesInDateRanges` (lines 701-806); `none` propagates the `TypeError`
    thrown inside limited mode on a `subdaily` layer. -/
def datesInDateRangesStep (defn : LayerDef) (rangesLen : Nat) (limits : Option (Int × Int))
    (appNow : Int) (sdri : Bool) (st : ResolveState) (index : Nat) (dateRange : DateRange) :
    Option ResolveState :=
  let dateIntervalNum := jsNumber dateRange.dateInterval
  let currentDateTime := st.currentDate
  let lastDateInDateArray := st.dateArray.getLast?
  let minDate := dateRange.startDate.toTime
  let maxDate0 := dateRange.endDate.toTime
  let runBuilders : Int → Int → ResolveState := fun currentDate2 maxDate =>
    let arr1 :=
      if defn.period = Period.yearly then
        getYearDateRange currentDate2 minDate maxDate dateIntervalNum st.dateArray
      else st.dateArray
    let arr2 :=
      match defn.period with
      | Period.monthly => getMonthDateRange limits currentDate2 minDate maxDate dateIntervalNum arr1
      | Period.daily => getDayDateRange limits currentDate2 minDate maxDate dateIntervalNum arr1
      | Period.subdaily =>
          getSubdailyDateRange limits currentDate2 minDate maxDate dateIntervalNum arr1
      | Period.yearly => arr1
    { dateArray := arr2, currentDate := currentDate2,
      hitMaxLimitOfRange := st.hitMaxLimitOfRange, runningMinDate := some minDate }
  match limits with
  | none =>
      if (currentDateTime < minDate ∨ currentDateTime > maxDate0) ∧
          st.hitMaxLimitOfRange = false ∧ currentDateTime < minDate then
        some { st with
          dateArray :=
            match lastDateInDateArray with
            | some last =>
                if last > minDate then st.dateArray.dropLast ++ [minDate, last]
                else st.dateArray
            | none => st.dateArray ++ [minDate],
          hitMaxLimitOfRange := true }
      else if sdri then
        match getLimitedDateRange defn st.currentDate with
        | some limitedDateRange => some { st with dateArray := limitedDateRange }
        | none => none
      else some (runBuilders st.currentDate maxDate0)
  | some (sl, el) =>
      if dateRange.startDate = dateRange.endDate then
        some { st with dateArray :=
          if minDate ≥ sl ∧ maxDate0 ≤ el then st.dateArray ++ [minDate] else st.dateArray }
      else
        let revise : Bool := decide (currentDateTime < minDate) &&
          (decide (minDate > sl ∧ minDate < el) ||
            (st.runningMinDate.isSome &&
              match lastDateInDateArray with
              | some last => decide (last > minDate)
              | none => false))
        let currentDate2 := if revise then minDate else st.currentDate
        let maxDate :=
          if index = rangesLen - 1 ∧ defn.ongoing then
            (if defn.futureTime.isSome then maxDate0 else appNow)
          else maxDate0
        some (runBuilders currentDate2 maxDate)

/-- Source `datesInDateRanges` (lines 670-808): the date sequence of a layer
    around the requested date. `none` models the uncaught exception thrown in
    limited mode on a `subdaily` layer (never hit by real catalogs). -/
def datesInDateRanges (defn : LayerDef) (date : Int)
    (startDateLimit endDateLimit : Option Int) (appNow : Int) : Option (List Int) :=
  match defn.dateRanges with
  | none => some []
  | some dateRanges =>
      let limits : Option (Int × Int) :=
        match startDateLimit, endDateLimit with
        | some sl, some el => some (sl, el)
        | _, _ => none
      let sdri : Bool :=
        match limits, dateRanges with
        | none, [r] => r.dateInterval == "1"
        | _, _ => false
      let final := dateRanges.enum.foldl
        (fun ost ir =>
          match ost with
          | none => none
          | some st => datesInDateRangesStep defn dateRanges.length limits appNow sdri st ir.1 ir.2)
        (some { dateArray := [], currentDate := date,
                hitMaxLimitOfRange := false, runningMinDate := none })
      final.map (fun st => st.dateArray)

/-! ## String primitives for the permalink codec

The codec manipulates JS strings; they are modelled on `List Char` with
`String` at the data-structure boundary. `charSplitList` is
`String.prototype.split` with a single-character separator (empty segments
are kept, the empty string yields one empty segment). -/

def charSplitList (sep : Char) : List Char → List (List Char)
  | [] => [[]]
  | c :: rest =>
      if c = sep then [] :: charSplitList sep rest
      else
        match charSplitList sep rest with
        | [] => [[c]]
        | seg :: segs => (c :: seg) :: segs

/-- JS `split` on a string: always at least one segment. -/
def jsSplit (sep : Char) (s : String) : List String :=
  (charSplitList sep s.toList).map String.mk

/-- JS `Array.prototype.join` / template concatenation with a separator. -/
def joinSep (sep : Char) : List String → String
  | [] => ""
  | [x] => x
  | x :: rest => x ++ String.mk [sep] ++ joinSep sep rest

/-- Decimal digit list (big-endian) of a natural number; `0` is `[0]`. -/
def natDigits (n : Nat) : List Nat :=
  if h : n < 10 then [n]
  else
    have : n / 10 < n := Nat.div_lt_self (by omega) (by omega)
    natDigits (n / 10) ++ [n % 10]

/-- Value of a big-endian digit list. -/
def digitsVal (ds : List Nat) : Nat := ds.foldl (fun a d => 10 * a + d) 0

/-- Digit characters of a natural number. -/
def natChars (n : Nat) : List Char := (natDigits n).map (fun d => Char.ofNat (48 + d))

/-- Modelled from the spec: the JS number-to-string conversion used when an
    attribute value is appended to the permalink. It is exact for numbers
    with a terminating decimal expansion of at most ten fraction digits
    (every value the codec round-trips); other rationals never occur. -/
def jsNumToString (q : ℚ) : String :=
  let sign := if q < 0 then "-" else ""
  let a := if q < 0 then -q else q
  if a.den = 1 then sign ++ String.mk (natChars a.num.toNat)
  else
    match (List.range 11).find? (fun n => (a * 10 ^ n).den = 1) with
    | some n =>
        let m := (a * 10 ^ n).num.toNat
        let intPart := m / 10 ^ n
        let fracPart := m % 10 ^ n
        let fracDigits := natChars fracPart
        let padded := List.replicate (n - fracDigits.length) '0' ++ fracDigits
        sign ++ String.mk (natChars intPart) ++ "." ++ String.mk padded
    | none => sign ++ String.mk (natChars a.num.toNat) ++ "/" ++ String.mk (natChars a.den)

/-- Leading run of decimal digits. -/
def takeDigits (chars : List Char) : List Char := chars.takeWhile Char.isDigit

/-- Value of a run of digit characters. -/
def charsVal (ds : List Char) : Nat := digitsVal (ds.map (fun c => c.toNat - 48))

/-- The `parseFloat` conversion, modelled for the decimal literals the codec
    produces: optional sign, integer digits, optional fraction; `none` is
    `NaN` (no leading digits at all). -/
def parseFloat (s : String) : Option ℚ :=
  let chars := s.toList
  let (neg, rest) :=
    match chars with
    | '-' :: r => (true, r)
    | '+' :: r => (false, r)
    | _ => (false, chars)
  let intDigits := takeDigits rest
  let afterInt := rest.drop intDigits.length
  let (fracDigits, _) :=
    match afterInt with
    | '.' :: r => (takeDigits r, r)
    | _ => ([], afterInt)
  if intDigits.isEmpty ∧ fracDigits.isEmpty then none
  else
    let v : ℚ := (charsVal intDigits : ℚ) +
      (charsVal fracDigits : ℚ) / (10 ^ fracDigits.length : ℚ)
    some (if neg then -v else v)

/-! ## Layer state codec -/

/-- A permalink attribute value: the v1.2 parser stores the boolean `true`
    for bare keys and strings otherwise; the serializer stores numbers for
    `opacity`/`count` before they are stringified into the URL. -/
inductive AttrValue
  | boolean (b : Bool)
  | str (s : String)
  | num (q : ℚ)
deriving DecidableEq, Repr

/-- An entry of an `attributes` list. The serializer's `hidden` attribute
    carries no `value` field at all (`none`). -/
structure Attr where
  id : String
  value : Option AttrValue
deriving DecidableEq, Repr

/-- The decoded per-layer display state produced by `getLayerSpec`. -/
structure LayerSpec where
  hidden : Bool := false
  opacity : ℚ := 1
  count : Option (Option ℚ) := none
  bandCombo : Option (List String) := none
  custom : Option (List String) := none
  min : Option (List (Option ℚ)) := none
  squash : Option (List Bool) := none
  max : Option (List (Option ℚ)) := none
  disabled : Option (List String) := none
deriving DecidableEq, Repr

/-- Modelled from the spec: `util.clamp` (source outside the supplied
    files) restricts a value to `[lo, hi]`. -/
def clamp (v lo hi : ℚ) : ℚ := if v < lo then lo else if v > hi then hi else v

/-- The `parseFloat(attr.value)` coercion: numbers pass through, strings are
    parsed, anything else is `NaN`. -/
def parseFloatValue : Option AttrValue → Option ℚ
  | some (AttrValue.num q) => some q
  | some (AttrValue.str s) => parseFloat s
  | _ => none

/-- The `Number(attr.value)` coercion used for the granule `count`. -/
def numberValue : Option AttrValue → Option ℚ
  | some (AttrValue.num q) => some q
  | some (AttrValue.str s) => (jsNumber s).map (fun n => (n : ℚ))
  | some (AttrValue.boolean b) => some (if b then 1 else 0)
  | none => none

/-- One step of the `lodashEach` in `getLayerSpec` (lines 900-1007); `none`
    propagates the `TypeError` of calling `.split` on a non-string value
    (`disabled`, `bands`, `palette`, `style`). -/
def getLayerSpecStep (spec : LayerSpec) (attr : Attr) : Option LayerSpec :=
  let splitStr : Option (List String) :=
    match attr.value with
    | some (AttrValue.str s) => some (jsSplit ';' s)
    | _ => none
  if attr.id = "hidden" then some { spec with hidden := true }
  else if attr.id = "opacity" then
    some { spec with opacity :=
      match parseFloatValue attr.value with
      | some v => clamp v 0 1
      | none => 0 }
  else if attr.id = "disabled" then
    (splitStr).map (fun values => { spec with disabled := some values })
  else if attr.id = "max" then
    match attr.value with
    | some (AttrValue.str s) =>
        let values := jsSplit ';' s
        let maxArray := values.filterMap (fun v =>
          if v = "" then some none
          else match parseFloat v with
            | some q => some (some q)
            | none => none)
        some { spec with max := if maxArray.length ≠ 0 then some maxArray else none }
    | _ => some spec
  else if attr.id = "min" then
    match attr.value with
    | some (AttrValue.str s) =>
        let values := jsSplit ';' s
        let minArray := values.filterMap (fun v =>
          if v = "" then some none
          else match parseFloat v with
            | some q => some (some q)
            | none => none)
        some { spec with min := if minArray.length ≠ 0 then some minArray else none }
    | _ => some spec
  else if attr.id = "squash" then
    match attr.value with
    | some (AttrValue.boolean true) => some { spec with squash := some [true] }
    | some (AttrValue.str s) =>
        let squashArray := (jsSplit ';' s).map (fun v => v == "true")
        some { spec with squash := if squashArray.length ≠ 0 then some squashArray else none }
    | _ => some spec
  else if attr.id = "bands" then
    (splitStr).map (fun values => { spec with bandCombo := some values })
  else if attr.id = "palette" then
    (splitStr).map (fun values => { spec with custom := some values })
  else if attr.id = "style" then
    (splitStr).map (fun values => { spec with custom := some values })
  else if attr.id = "count" then
    some { spec with count := some (numberValue attr.value) }
  else some spec

/-- Source `getLayerSpec` (lines 900-1007): table-driven decode of an
    attribute list. -/
def getLayerSpec (attributes : List Attr) : Option LayerSpec :=
  attributes.foldl
    (fun acc attr =>
      match acc with
      | none => none
      | some spec => getLayerSpecStep spec attr)
    (some {})

/-- An entry of the active layer array (`addLayer` output): the catalog id
    together with the decoded display spec. -/
structure ActiveLayer where
  id : String
  spec : LayerSpec
deriving DecidableEq, Repr

/-- A parsed layer state before catalog resolution (`lstate`). -/
structure Lstate where
  id : String
  attributes : List Attr
deriving DecidableEq, Repr

/-- The layer catalog and parameters the codec reads: the set of known ids
    (`config.layers`), the id redirect table (`config.redirects.layers`) and
    the catalog's default layer set (what the `resetLayers` selector
    returns). -/
structure Config where
  layers : List String
  redirects : List (String × String)
  defaults : List ActiveLayer
deriving DecidableEq, Repr

/-- The redirect lookup `config.redirects.layers[id] || id`. -/
def redirectId (cfg : Config) (id : String) : String :=
  match cfg.redirects.find? (fun kv => kv.1 = id) with
  | some kv => if kv.2 = "" then id else kv.2
  | none => id

/-- Modelled from the spec: `addLayer` (a selector outside the supplied
    files) builds the active layer for `id` from its decoded spec and
    inserts it into the array using the catalog's group/z-order placement
    rules; the placement position is abstracted (membership is what the
    claims below use). -/
def addLayer (id : String) (spec : LayerSpec) (layerArray : List ActiveLayer) :
    List ActiveLayer :=
  { id := id, spec := spec } :: layerArray

/-- Modelled from the spec: `resetLayers` (a selector outside the supplied
    files) returns the catalog's default layer set. -/
def resetLayers (cfg : Config) : List ActiveLayer := cfg.defaults

/-- Source `createLayerArrayFromState` (lines 1009-1031): resolve each
    parsed id against the catalog, dropping unknown ids with a warning;
    `none` propagates an exception from `getLayerSpec`. -/
def createLayerArrayFromState (layers : List Lstate) (cfg : Config) :
    Option (List ActiveLayer) :=
  layers.reverse.foldlM
    (fun layerArray lstate =>
      if cfg.layers.contains lstate.id then
        match getLayerSpec lstate.attributes with
        | some spec => some (addLayer lstate.id spec layerArray)
        | none => none
      else some layerArray)
    []

/-- The split `str.split(/[~,.]/)` of `layersParse11`. -/
def parse11Pieces (str : String) : List String :=
  (str.toList.foldr
    (fun c acc =>
      if c = '~' ∨ c = ',' ∨ c = '.' then [] :: acc
      else match acc with
        | [] => [[c]]
        | seg :: segs => (c :: seg) :: segs)
    [[]]).map String.mk

/-- One piece of the v1.1 permalink as a referenced (visibility, id) pair:
    the `!` prefix stripped and the redirect table applied. -/
def parse11Candidate (cfg : Config) (id0 : String) : Bool × String :=
  let (visible, id1) :=
    match id0.toList with
    | '!' :: rest => (false, String.mk rest)
    | _ => (true, id0)
  (visible, redirectId cfg id1)

/-- Every layer id the v1.1 permalink references (after redirects). -/
def parse11CandidateIds (str : String) (cfg : Config) : List String :=
  ((parse11Pieces str).filter
    (fun id0 => ¬(id0 = "baselayers" ∨ id0 = "overlays"))).map
    (fun id0 => (parse11Candidate cfg id0).2)

/-- The parsed layer states of the v1.1 permalink: referenced ids known to
    the catalog, with a `hidden` attribute when prefixed by `!`. -/
def parse11Lstates (str : String) (cfg : Config) : List Lstate :=
  (parse11Pieces str).foldl
    (fun acc id0 =>
      if id0 = "baselayers" ∨ id0 = "overlays" then acc
      else
        let c := parse11Candidate cfg id0
        if cfg.layers.contains c.2 then
          acc ++ [{ id := c.2,
                    attributes :=
                      if c.1 then []
                      else [{ id := "hidden", value := some (AttrValue.boolean true) }] }]
        else acc)
    ([] : List Lstate)

/-- Source `layersParse11` (lines 1119-1158): the v1.0/1.1 permalink
    grammar. Ids are delimited by `~`, `,` or `.`; the literal tokens
    `baselayers`/`overlays` are ignored; a leading `!` marks the layer
    hidden; unknown ids (after redirects) are dropped with a warning. -/
def layersParse11 (str : String) (cfg : Config) : Option (List ActiveLayer) :=
  createLayerArrayFromState (parse11Lstates str cfg) cfg

/-- The global regex match `str.match(/[^(,]+(\([^)]*\))?,?/g)` of
    `layersParse12`: a token is a maximal run of characters other than `(`
    and `,`, optionally followed by a parenthesised group (only when a
    closing `)` exists) and an optional trailing comma; positions where no
    token can start are skipped. -/
def splitLayerTokensGo : Nat → List Char → List String
  | _, [] => []
  | 0, _ :: _ => []
  | fuel + 1, c :: rest =>
      if c = '(' ∨ c = ',' then splitLayerTokensGo fuel rest
      else
        match rest.drop (rest.takeWhile (fun ch => ch != '(' && ch != ',')).length with
        | '(' :: restp =>
            if restp.contains ')' then
              String.mk (c :: rest.takeWhile (fun ch => ch != '(' && ch != ',')
                  ++ '(' :: (restp.takeWhile (fun ch => ch != ')') ++ [')'])) ::
                splitLayerTokensGo fuel
                  (if (restp.drop ((restp.takeWhile (fun ch => ch != ')')).length + 1)).head?
                      = some ',' then
                    (restp.drop ((restp.takeWhile (fun ch => ch != ')')).length + 1)).tail
                  else restp.drop ((restp.takeWhile (fun ch => ch != ')')).length + 1))
            else
              String.mk (c :: rest.takeWhile (fun ch => ch != '(' && ch != ',')) ::
                splitLayerTokensGo fuel
                  (rest.drop (rest.takeWhile (fun ch => ch != '(' && ch != ',')).length)
        | ',' :: restc =>
            String.mk (c :: rest.takeWhile (fun ch => ch != '(' && ch != ',')) ::
              splitLayerTokensGo fuel restc
        | _ =>
            String.mk (c :: rest.takeWhile (fun ch => ch != '(' && ch != ',')) ::
              splitLayerTokensGo fuel
                (rest.drop (rest.takeWhile (fun ch => ch != '(' && ch != ',')).length)

def splitLayerTokens (chars : List Char) : List String :=
  splitLayerTokensGo chars.length chars

/-- One token of the v1.2 grammar (`layersParse12` body, lines 1168-1206):
    the id before any paren or comma (redirected), and the `key[=value]`
    attribute list inside the parens (`/\(.*\)/` spans the first `(` to the
    last `)`); a bare key decodes to the boolean `true`. `none` models the
    `TypeError` of indexing a failed id match. -/
def parse12Token (cfg : Config) (token : String) : Option Lstate :=
  let chars := token.toList
  let idChars := chars.takeWhile (fun ch => ch != '(' && ch != ',')
  if idChars.isEmpty then none
  else
    let layerId := redirectId cfg (String.mk idChars)
    let arrayAttr : Option (List Char) :=
      let pre := chars.takeWhile (fun ch => ch != '(')
      let fromParen := chars.drop pre.length
      if fromParen.isEmpty then none
      else
        let revTail := fromParen.reverse.takeWhile (fun ch => ch != ')')
        if revTail.length = fromParen.length then none
        else some (fromParen.take (fromParen.length - revTail.length))
    let attributes :=
      match arrayAttr with
      | some sub =>
          let strAttr := sub.filter (fun c => c != '(' && c != ')')
          let kvps := charSplitList ',' strAttr
          kvps.map (fun kvp =>
            match charSplitList '=' kvp with
            | [p0] => { id := String.mk p0, value := some (AttrValue.boolean true) }
            | p0 :: p1 :: _ => { id := String.mk p0, value := some (AttrValue.str (String.mk p1)) }
            | [] => { id := "", value := some (AttrValue.boolean true) })
      | none => []
    some { id := layerId, attributes := attributes }

/-- Source `layersParse12` (lines 1161-1216): tokenize, parse each token,
    resolve against the catalog; any exception falls back to the catalog's
    default layer set (the `try`/`catch`). -/
def layersParse12 (stateObj : String) (cfg : Config) : List ActiveLayer :=
  let body : Option (List ActiveLayer) :=
    match (splitLayerTokens stateObj.toList).mapM (parse12Token cfg) with
    | some lstates => createLayerArrayFromState lstates cfg
    | none => none
  match body with
  | some v => v
  | none => resetLayers cfg

/-! ## Serializer (`serializeLayers`, lines 810-871) -/

/-- The active layer as the serializer reads it: identity, visibility and
    the current visual attribute state (palette, vector style, band
    combination, granule count). -/
structure SerializableLayer where
  id : String
  visible : Bool
  opacity : ℚ
  bandCombo : Option (List (String × String)) := none
  palette : Bool := false
  custom : Option (List String) := none
  min : Option (List (Option ℚ)) := none
  max : Option (List (Option ℚ)) := none
  squash : Option (List Bool) := none
  disabled : Option (List String) := none
  vectorStyle : Bool := false
  granuleCount : Option ℚ := none
deriving DecidableEq, Repr

/-- `JSON.stringify` of the band-combination object, modelled over its
    key/value pairs. -/
def jsonStringifyBandCombo (bc : List (String × String)) : String :=
  "\x7b" ++ joinSep ',' (bc.map (fun kv => "\"" ++ kv.1 ++ "\":\"" ++ kv.2 ++ "\"")) ++ "\x7d"

/-- The two `replaceAll` calls substituting parens by angle brackets. -/
def replaceParens (s : String) : String :=
  String.mk (s.toList.map (fun c => if c = '(' then '<' else if c = ')' then '>' else c))

def hexDigitChar (n : Nat) : Char :=
  if n < 10 then Char.ofNat (48 + n) else Char.ofNat (55 + n)

/-- `encodeURIComponent` over the ASCII strings the codec produces. -/
def encodeURIComponent (s : String) : String :=
  String.mk (s.toList.foldr
    (fun c acc =>
      if c.isAlphanum ∨ c ∈ ['-', '_', '.', '!', '~', '*', '\'', '(', ')'] then c :: acc
      else '%' :: hexDigitChar (c.toNat / 16) :: hexDigitChar (c.toNat % 16) :: acc)
    [])

/-- Modelled from the spec: `getPaletteAttributeArray`
    (`modules/palettes/util.js`, outside the supplied files) emits the
    palette override attributes of a layer from the current palette state —
    the override ids under `palette` and the semicolon-joined `min`, `max`,
    `squash` and `disabled` lists, each only when present. -/
def getPaletteAttributeArray (defn : SerializableLayer) : List Attr :=
  (match defn.custom with
   | some cs => [{ id := "palette", value := some (AttrValue.str (joinSep ';' cs)) }]
   | none => []) ++
  (match defn.min with
   | some ms => [{ id := "min", value := some (AttrValue.str (joinSep ';'
      (ms.map (fun m => match m with | some q => jsNumToString q | none => "")))) }]
   | none => []) ++
  (match defn.max with
   | some ms => [{ id := "max", value := some (AttrValue.str (joinSep ';'
      (ms.map (fun m => match m with | some q => jsNumToString q | none => "")))) }]
   | none => []) ++
  (match defn.squash with
   | some ss => [{ id := "squash", value := some (AttrValue.str (joinSep ';'
      (ss.map (fun b => if b then "true" else "false")))) }]
   | none => []) ++
  (match defn.disabled with
   | some ds => [{ id := "disabled", value := some (AttrValue.str (joinSep ';' ds)) }]
   | none => [])

/-- Modelled from the spec: `getVectorStyleAttributeArray`
    (`modules/vector-styles/util.js`, outside the supplied files) emits the
    vector style override under `style`. -/
def getVectorStyleAttributeArray (defn : SerializableLayer) : List Attr :=
  match defn.custom with
  | some cs => [{ id := "style", value := some (AttrValue.str (joinSep ';' cs)) }]
  | none => []

/-- The URL form of one attribute (`key` or `key=value`). -/
def attrToURLPart (a : Attr) : String :=
  match a.value with
  | none => a.id
  | some (AttrValue.str s) => a.id ++ "=" ++ s
  | some (AttrValue.num q) => a.id ++ "=" ++ jsNumToString q
  | some (AttrValue.boolean b) => a.id ++ "=" ++ (if b then "true" else "false")

/-- Modelled from the spec: `util.appendAttributesForURL` (outside the
    supplied files) renders an item as `id(k1=v1,k2,...)`, or the bare id
    when there are no attributes. -/
def appendAttributesForURL (id : String) (attrs : List Attr) : String :=
  if attrs.isEmpty then id
  else id ++ "(" ++ joinSep ',' (attrs.map attrToURLPart) ++ ")"

/-- Source `serializeLayers` (lines 810-871): one permalink token per
    layer — `hidden` when invisible, `opacity` when below one, the
    percent-encoded `bandCombo`, and exactly one of the palette, vector
    style or granule-count attribute groups. -/
def serializeLayers (layers : List SerializableLayer) : List String :=
  layers.map (fun defn =>
    let attrs :=
      (if ¬defn.visible then [{ id := "hidden", value := none }] else []) ++
      (if defn.opacity < 1 then
        [{ id := "opacity", value := some (AttrValue.num defn.opacity) }] else []) ++
      (match defn.bandCombo with
       | some bc =>
          [{ id := "bandCombo", value := some (AttrValue.str
            (encodeURIComponent (replaceParens (jsonStringifyBandCombo bc)))) }]
       | none => []) ++
      (if defn.palette ∧ (defn.custom.isSome ∨ defn.min.isSome ∨ defn.max.isSome ∨
          defn.squash.isSome ∨ defn.disabled.isSome) then
        getPaletteAttributeArray defn
      else if defn.vectorStyle ∧ (defn.custom.isSome ∨ defn.min.isSome ∨ defn.max.isSome) then
        getVectorStyleAttributeArray defn
      else
        match defn.granuleCount with
        | some c => if c ≠ 20 then [{ id := "count", value := some (AttrValue.num c) }] else []
        | none => [])
    appendAttributesForURL defn.id attrs)

/-- The v1.2 permalink parameter: the serialized tokens joined by commas. -/
def serializePermalink (layers : List SerializableLayer) : String :=
  joinSep ',' (serializeLayers layers)

/-! ## Overlap detection (`dateOverlap`, lines 1036-1117) -/

/-- One overlapping adjacent pair reported by `dateOverlap`. -/
structure OverlapPair where
  previous : DateRange
  current : DateRange
deriving DecidableEq, Repr

/-- The accumulator/result object of the `reduce` in `dateOverlap`. -/
structure OverlapResult where
  overlap : Bool
  ranges : List OverlapPair
deriving DecidableEq, Repr

/-- The prior range's effective end inside `dateOverlap`: the parsed end
    date extended by `(dateInterval - 1)` period units — days (in epoch
    milliseconds) for `daily` and only when the interval exceeds one, whole
    months via `setMonth` for `monthly`, whole years via `setFullYear` for
    `yearly`, and no extension for `subdaily`. A `NaN` interval (`none`)
    makes the month/year arithmetic produce an invalid date, whose
    comparison below is always false. -/
def dateOverlapEffectiveEnd (period : Period) (previous : DateRange) : Option Int :=
  let previousEnd := previous.endDate.toTime
  let k? := jsNumber previous.dateInterval
  match period with
  | Period.daily =>
      match k? with
      | some k =>
          if k > 1 then some (previousEnd + (k * 86400000 - 86400000)) else some previousEnd
      | none => some previousEnd
  | Period.monthly =>
      match k? with
      | some k => some (jsSetMonth previousEnd (getUTCMonth previousEnd + (k - 1)))
      | none => none
  | Period.yearly =>
      match k? with
      | some k => some (jsSetFullYear previousEnd (getUTCFullYear previousEnd + (k - 1)))
      | none => none
  | Period.subdaily => some previousEnd

/-- The comparator of the `sort` call in `dateOverlap` orders by parsed
    start date ascending; `Array.prototype.sort` is stable (ES2019), which
    the insertion sort realizes, and it sorts the caller's array in place. -/
def dateOverlapLE (a b : DateRange) : Prop := a.startDate.toTime ≤ b.startDate.toTime

instance : DecidableRel dateOverlapLE := fun a b => by
  unfold dateOverlapLE; infer_instance

/-- Source `dateOverlap` (lines 1036-1117). The first component is the
    returned result object; the second is the content of the caller's
    `dateRanges` array after the call (the in-place `sort`). -/
def dateOverlap (period : Period) (dateRanges : List DateRange) :
    OverlapResult × List DateRange :=
  let sortedRanges := List.insertionSort dateOverlapLE dateRanges
  let result := (sortedRanges.zip sortedRanges.tail).foldl
    (fun acc pc =>
      let previous := pc.1
      let current := pc.2
      let overlap :=
        match dateOverlapEffectiveEnd period previous with
        | some e => decide (e ≥ current.startDate.toTime)
        | none => false
      if overlap then
        { overlap := true, ranges := acc.ranges ++ [{ previous := previous, current := current }] }
      else acc)
    { overlap := false, ranges := [] }
  (result, sortedRanges)

/-! ## Concrete instances used by the claims -/

/-- The monthly example layer of the spec: one range 2020-01-01..2020-06-01
    with interval `'1'`. -/
def monthlyExampleLayer : LayerDef :=
  { period := Period.monthly,
    dateRanges := some [{ startDate := ⟨2020, 0, 1, 0, 0, 0⟩,
                          endDate := ⟨2020, 5, 1, 0, 0, 0⟩, dateInterval := "1" }],
    ongoing := false, futureTime := none }

/-- Daily range 2020-01-01..2020-01-10, interval 1. -/
def overlapRangeA : DateRange :=
  { startDate := ⟨2020, 0, 1, 0, 0, 0⟩, endDate := ⟨2020, 0, 10, 0, 0, 0⟩, dateInterval := "1" }

/-- Daily range 2020-01-05..2020-01-20, interval 1. -/
def overlapRangeB : DateRange :=
  { startDate := ⟨2020, 0, 5, 0, 0, 0⟩, endDate := ⟨2020, 0, 20, 0, 0, 0⟩, dateInterval := "1" }

/-- A small catalog: two known ids, no redirects, one default layer. -/
def exampleConfig : Config :=
  { layers := ["layer", "modis"], redirects := [],
    defaults := [{ id := "modis", spec := {} }] }

/-- A daily layer with two overlapping ranges, used to exhibit the ordering
    defect of the resolver. -/
def overlappingDailyLayer : LayerDef :=
  { period := Period.daily,
    dateRanges := some
      [{ startDate := ⟨2020, 0, 1, 0, 0, 0⟩, endDate := ⟨2020, 0, 10, 0, 0, 0⟩,
         dateInterval := "1" },
       { startDate := ⟨2020, 0, 8, 0, 0, 0⟩, endDate := ⟨2020, 0, 20, 0, 0, 0⟩,
         dateInterval := "1" }],
    ongoing := false, futureTime := none }

instance : IsTotal DateRange dateOverlapLE :=
  ⟨fun a b => le_total a.startDate.toTime b.startDate.toTime⟩

instance : IsTrans DateRange dateOverlapLE :=
  ⟨fun _ _ _ hab hbc => le_trans hab hbc⟩

/-- The claim's reading of the prior range's effective end: the parsed end
    date extended by `(dateInterval - 1)` period units — days for `daily`,
    months (JS `setMonth` semantics) for `monthly`, years (`setFullYear`)
    for `yearly`. A `subdaily` range has no whole-period unit and is not
    extended. -/
def claimEffectiveEnd (period : Period) (k : Int) (r : DateRange) : Int :=
  match period with
  | Period.daily => r.endDate.toTime + (k - 1) * msPerDay
  | Period.monthly => jsSetMonth r.endDate.toTime (getUTCMonth r.endDate.toTime + (k - 1))
  | Period.yearly => jsSetFullYear r.endDate.toTime (getUTCFullYear r.endDate.toTime + (k - 1))
  | Period.subdaily => r.endDate.toTime

/-- The overlap test `dateOverlap` applies to one adjacent pair of the
    sorted ranges. -/
def overlapPairHit (period : Period) (pc : DateRange × DateRange) : Bool :=
  match dateOverlapEffectiveEnd period pc.1 with
  | some e => decide (e ≥ pc.2.startDate.toTime)
  | none => false

/-- What one piece of the v1.1 permalink contributes to the parsed layer
    states: nothing for the literal `baselayers`/`overlays` tokens and for
    ids unknown to the catalog (after redirects), otherwise the id with a
    `hidden` attribute when prefixed by `!`. -/
def lstateOfPiece (cfg : Config) (id0 : String) : Option Lstate :=
  if id0 = "baselayers" ∨ id0 = "overlays" then none
  else
    let c := parse11Candidate cfg id0
    if cfg.layers.contains c.2 then
      some { id := c.2,
             attributes :=
               if c.1 then []
               else [{ id := "hidden", value := some (AttrValue.boolean true) }] }
    else none

/-- One serialized token: a nonempty id free of the delimiter characters,
    optionally followed by a parenthesised attribute group whose interior
    has no parentheses. -/
def TokenBody (tok : String) : Prop := ∃ idc inner,
  (tok.toList = idc ∨ tok.toList = idc ++ '(' :: (inner ++ [')'])) ∧ idc ≠ [] ∧
  (∀ c ∈ idc, ¬(c = '(' ∨ c = ',' ∨ c = ')')) ∧ (∀ c ∈ inner, ¬(c = '(' ∨ c = ')'))

/-- The per-pair decode the v1.2 parser applies to one `key[=value]`. -/
def parseKvp (kvp : List Char) : Attr :=
  match charSplitList '=' kvp with
  | [p0] => { id := String.mk p0, value := some (AttrValue.boolean true) }
  | p0 :: p1 :: _ => { id := String.mk p0, value := some (AttrValue.str (String.mk p1)) }
  | [] => { id := "", value := some (AttrValue.boolean true) }

/-- A string free of the six characters the codec treats specially. -/
def SafeChars (s : String) : Prop :=
  ∀ c ∈ s.toList, ¬(c = '(' ∨ c = ')' ∨ c = ',' ∨ c = '=' ∨ c = ';')

/-- The attribute list the v1.2 parser recovers from a serialized layer of
    the restricted shape (visibility, opacity, palette override). -/
def parsedAttrs (L : SerializableLayer) : List Attr :=
  (if ¬L.visible then [{ id := "hidden", value := some (AttrValue.boolean true) }] else []) ++
  (if L.opacity < 1 then
    [{ id := "opacity", value := some (AttrValue.str (jsNumToString L.opacity)) }] else []) ++
  (match L.custom with
   | some cs => [{ id := "palette", value := some (AttrValue.str (joinSep ';' cs)) }]
   | none => [])

/-- What the v1.2 parser makes of one serialized attribute. -/
def reparse (a : Attr) : Attr :=
  match a.value with
  | none => { id := a.id, value := some (AttrValue.boolean true) }
  | some (AttrValue.str s) => { id := a.id, value := some (AttrValue.str s) }
  | some (AttrValue.num q) => { id := a.id, value := some (AttrValue.str (jsNumToString q)) }
  | some (AttrValue.boolean b) =>
      { id := a.id, value := some (AttrValue.str (if b then "true" else "false")) }

/-- The attribute list the serializer emits for a layer of the restricted
    shape. -/
def serialAttrs (L : SerializableLayer) : List Attr :=
  (if ¬L.visible then [{ id := "hidden", value := none }] else []) ++
  (if L.opacity < 1 then [{ id := "opacity", value := some (AttrValue.num L.opacity) }] else []) ++
  (match L.custom with
   | some cs => [{ id := "palette", value := some (AttrValue.str (joinSep ';' cs)) }]
   | none => [])

/-- The restricted layer shape the amended round-trip covers: a catalog
    layer with safe id, faithfully stringified opacity in `[0, 1]`, an
    optional palette override of safe strings, and no band-combination,
    vector-style, threshold or granule-count state. -/
def RoundTrippable (cfg : Config) (L : SerializableLayer) : Prop :=
  L.id.toList ≠ [] ∧ SafeChars L.id ∧
  cfg.layers.contains L.id = true ∧ redirectId cfg L.id = L.id ∧
  (L.opacity < 1 → parseFloat (jsNumToString L.opacity) = some L.opacity) ∧
  0 ≤ L.opacity ∧ L.opacity ≤ 1 ∧
  (L.opacity < 1 → SafeChars (jsNumToString L.opacity)) ∧
  L.bandCombo = none ∧ L.min = none ∧ L.max = none ∧ L.squash = none ∧
  L.disabled = none ∧ L.vectorStyle = false ∧ L.granuleCount = none ∧
  L.palette = L.custom.isSome ∧
  (L.custom.isSome = true → L.custom.getD [] ≠ []) ∧
  (∀ s ∈ L.custom.getD [], SafeChars s)

instance (cfg : Config) (L : SerializableLayer) : Decidable (RoundTrippable cfg L) := by
  unfold RoundTrippable SafeChars
  infer_instance

/-! ## Claim theorems -/

/-- C2: for a layer with period `monthly`, the single date range
    2020-01-01..2020-06-01 with interval 1, requested date 2020-03-15 and no
    start/end limits, `datesInDateRanges` resolves in limited mode to
    exactly the three dates 2020-02-01, 2020-03-01 and 2020-04-01
    (whatever `appNow` is). -/
theorem C2_monthly_limited_mode_example (appNow : Int) :
    datesInDateRanges monthlyExampleLayer (DateSpec.toTime ⟨2020, 2, 15, 0, 0, 0⟩)
        none none appNow
      = some [DateSpec.toTime ⟨2020, 1, 1, 0, 0, 0⟩, DateSpec.toTime ⟨2020, 2, 1, 0, 0, 0⟩,
          DateSpec.toTime ⟨2020, 3, 1, 0, 0, 0⟩] := by
  rfl

/-- Every token the v1.2 tokenizer produces starts with a character that is
    neither `(` nor `,` (tokens are never empty). -/
theorem splitLayerTokensGo_shape : ∀ (n : Nat) (chars : List Char),
    ∀ tok ∈ splitLayerTokensGo n chars,
      ∃ c2 rest2, tok.toList = c2 :: rest2 ∧ ¬(c2 = '(' ∨ c2 = ',') := by
  intro n
  induction n with
  | zero =>
      intro chars tok h
      match chars with
      | [] => simp [splitLayerTokensGo] at h
      | c :: rest => simp [splitLayerTokensGo] at h
  | succ k ihn =>
      intro chars tok h
      match chars with
      | [] => simp [splitLayerTokensGo] at h
      | c :: rest =>
        rw [splitLayerTokensGo] at h
        by_cases hdelim : c = '(' ∨ c = ','
        · rw [if_pos hdelim] at h
          exact ihn rest tok h
        · rw [if_neg hdelim] at h
          split at h
          · split at h
            · rcases List.mem_cons.mp h with h | h
              · exact ⟨c, _, by rw [h]; rfl, hdelim⟩
              · exact ihn _ tok h
            · rcases List.mem_cons.mp h with h | h
              · exact ⟨c, _, by rw [h]; rfl, hdelim⟩
              · exact ihn _ tok h
          · rcases List.mem_cons.mp h with h | h
            · exact ⟨c, _, by rw [h]; rfl, hdelim⟩
            · exact ihn _ tok h
          · rcases List.mem_cons.mp h with h | h
            · exact ⟨c, _, by rw [h]; rfl, hdelim⟩
            · exact ihn _ tok h

theorem splitLayerTokens_shape (chars : List Char) :
    ∀ tok ∈ splitLayerTokens chars,
      ∃ c2 rest2, tok.toList = c2 :: rest2 ∧ ¬(c2 = '(' ∨ c2 = ',') :=
  splitLayerTokensGo_shape chars.length chars

/-- The per-token id match never fails on a produced token, so indexing it
    never throws. -/
theorem parse12Token_isSome (cfg : Config) (tok : String)
    (hc : ∃ c2 rest2, tok.toList = c2 :: rest2 ∧ ¬(c2 = '(' ∨ c2 = ',')) :
    (parse12Token cfg tok).isSome = true := by
  obtain ⟨c2, rest2, htok, hd⟩ := hc
  have hp : (c2 != '(' && c2 != ',') = true := by
    simp only [bne_iff_ne, ne_eq, Bool.and_eq_true, decide_eq_true_eq]
    tauto
  unfold parse12Token
  rw [htok]
  simp [List.takeWhile_cons, hp]

theorem mapM_option_isSome {α β : Type} (f : α → Option β) (l : List α)
    (h : ∀ a ∈ l, (f a).isSome = true) : (l.mapM f).isSome = true := by
  rw [← List.mapM'_eq_mapM]
  induction l with
  | nil => simp [List.mapM']
  | cons a as ih =>
      simp only [List.mapM']
      have ha := h a (by simp)
      rcases hfa : f a with _ | b
      · rw [hfa] at ha; simp at ha
      · have has := ih (fun x hx => h x (by simp [hx]))
        rcases hmas : as.mapM' f with _ | bs
        · rw [hmas] at has; simp at has
        · simp [hfa, hmas]

/-- C4: the claim asserts that an unbalanced parenthesis makes `layersParse12`
    return the catalog's default layer set; in fact the token before the
    parenthesis parses as a normal layer id, so the defaults are not
    returned. -/
theorem C4_unbalanced_paren_not_defaults :
    ¬(layersParse12 "layer(" exampleConfig = resetLayers exampleConfig) := by decide

/-- C4 (amended): `layersParse12` never propagates an exception. Tokenizing
    and reading each token's id never throws (first conjunct, for every
    input string and catalog); an unbalanced parenthesis parses the id
    before the parenthesis instead of raising (second conjunct); a genuine
    parse exception — here the bare `disabled` attribute, whose decoding
    calls `.split` on the boolean `true` — falls back to the catalog's
    default layer set (third conjunct). -/
theorem C4_parse12_never_throws :
    (∀ (s : String) (cfg : Config),
      ((splitLayerTokens s.toList).mapM (parse12Token cfg)).isSome = true)
    ∧ layersParse12 "layer(" exampleConfig = [{ id := "layer", spec := {} }]
    ∧ layersParse12 "modis(disabled)" exampleConfig = resetLayers exampleConfig := by
  refine ⟨fun s cfg => ?_, by decide, by decide⟩
  exact mapM_option_isSome _ _ (fun tok htok =>
    parse12Token_isSome cfg tok (splitLayerTokens_shape s.toList tok htok))

/-- C9: the claim asserts `dateOverlap` leaves the caller's range list
    unchanged; in fact `Array.prototype.sort` reorders the caller's array in
    place whenever it is not already sorted by start date. -/
theorem C9_input_reordered :
    (dateOverlap Period.daily [overlapRangeB, overlapRangeA]).2
      ≠ [overlapRangeB, overlapRangeA] := by decide

/-- C9 (amended): after a `dateOverlap` call the caller's array holds the
    same ranges — a permutation of the input, every element (and so its
    start/end dates) unchanged — but sorted by parsed start date ascending
    (the in-place stable sort). -/
theorem C9_in_place_sort_permutation (period : Period) (dateRanges : List DateRange) :
    (dateOverlap period dateRanges).2.Perm dateRanges ∧
      List.Sorted dateOverlapLE (dateOverlap period dateRanges).2 := by
  constructor
  · exact List.perm_insertionSort _ _
  · exact List.sorted_insertionSort _ _

/-- C7: the claim asserts each of the three limited-mode candidates is
    included only when inside the half-open interval from the range start to
    `breakMaxDate`; in fact the interval is closed at `breakMaxDate` and the
    zeroed requested date is pushed unconditionally. At requested date
    2020-07-01 — exactly `breakMaxDate` of the monthly example layer — the
    result still contains 2020-07-01, which the half-open interval
    excludes. -/
theorem C7_half_open_interval_counterexample :
    (getLimitedDateRange monthlyExampleLayer (DateSpec.toTime ⟨2020, 6, 1, 0, 0, 0⟩)
      = some [DateSpec.toTime ⟨2020, 5, 1, 0, 0, 0⟩, DateSpec.toTime ⟨2020, 6, 1, 0, 0, 0⟩])
    ∧ getBreakMaxDate Period.monthly (DateSpec.toTime ⟨2020, 5, 1, 0, 0, 0⟩)
        = some (DateSpec.toTime ⟨2020, 6, 1, 0, 0, 0⟩)
    ∧ ¬(DateSpec.toTime ⟨2020, 6, 1, 0, 0, 0⟩ < DateSpec.toTime ⟨2020, 6, 1, 0, 0, 0⟩) :=
  ⟨by decide, by decide, by decide⟩

/-- C7 (amended): in limited mode the candidate window is the closed
    interval from `startDate` to `breakMaxDate` (the range end advanced by
    one period unit): when the requested date lies in it, the result is the
    unit before (kept only when `≥ startDate`), the requested date zeroed to
    period granularity unconditionally, and the unit after (kept only when
    `≤ breakMaxDate`); otherwise the empty array. -/
theorem C7_closed_interval_characterization (defn : LayerDef) (r : DateRange)
    (rest : List DateRange) (currentDate breakMax prev cur next : Int)
    (hr : defn.dateRanges = some (r :: rest))
    (hbm : getBreakMaxDate defn.period r.endDate.toTime = some breakMax)
    (hsub : addSubDatesBasedOnPeriod defn.period (getUTCFullYear currentDate)
      (getUTCMonth currentDate) (getUTCDate currentDate)
      (getUTCMonth r.startDate.toTime) (getUTCDate r.startDate.toTime)
      = some (prev, cur, next)) :
    getLimitedDateRange defn currentDate =
      some (if currentDate ≥ r.startDate.toTime ∧ currentDate ≤ breakMax then
        (if prev ≥ r.startDate.toTime then [prev] else []) ++ [cur] ++
          (if next ≤ breakMax then [next] else [])
      else []) := by
  unfold getLimitedDateRange
  rw [hr]
  simp only [hbm, hsub, getPrevCurrentNextDates, getTimezoneOffsetDate]
  split <;> rfl

/-- Concrete instance of the closed-interval characterization: the monthly
    example layer at requested date 2020-03-15. -/
theorem C7_closed_interval_witness :
    getLimitedDateRange monthlyExampleLayer (DateSpec.toTime ⟨2020, 2, 15, 0, 0, 0⟩) =
      some (if DateSpec.toTime ⟨2020, 2, 15, 0, 0, 0⟩
              ≥ (DateSpec.mk 2020 0 1 0 0 0).toTime
            ∧ DateSpec.toTime ⟨2020, 2, 15, 0, 0, 0⟩ ≤ mkDate 2020 6 1 then
        (if mkDate 2020 1 1 ≥ (DateSpec.mk 2020 0 1 0 0 0).toTime then [mkDate 2020 1 1] else [])
          ++ [mkDate 2020 2 1] ++ (if mkDate 2020 3 1 ≤ mkDate 2020 6 1 then [mkDate 2020 3 1]
            else [])
      else []) :=
  C7_closed_interval_characterization monthlyExampleLayer
    ⟨⟨2020, 0, 1, 0, 0, 0⟩, ⟨2020, 5, 1, 0, 0, 0⟩, "1"⟩ []
    (DateSpec.toTime ⟨2020, 2, 15, 0, 0, 0⟩) (mkDate 2020 6 1)
    (mkDate 2020 1 1) (mkDate 2020 2 1) (mkDate 2020 3 1) rfl (by decide) (by decide)

/-- C10: in limited mode, whenever the requested date lies in the closed
    interval from `startDate` to `breakMaxDate`, the returned array contains
    the requested date zeroed to period granularity: the push is
    unconditional, so this holds even when the zeroed instant falls strictly
    after the range's declared `endDate`. -/
theorem C10_zeroed_current_always_included (defn : LayerDef) (r : DateRange)
    (rest : List DateRange) (currentDate breakMax prev cur next : Int)
    (hr : defn.dateRanges = some (r :: rest))
    (hbm : getBreakMaxDate defn.period r.endDate.toTime = some breakMax)
    (hsub : addSubDatesBasedOnPeriod defn.period (getUTCFullYear currentDate)
      (getUTCMonth currentDate) (getUTCDate currentDate)
      (getUTCMonth r.startDate.toTime) (getUTCDate r.startDate.toTime)
      = some (prev, cur, next))
    (h1 : currentDate ≥ r.startDate.toTime) (h2 : currentDate ≤ breakMax) :
    ∃ dates, getLimitedDateRange defn currentDate = some dates ∧ cur ∈ dates := by
  refine ⟨(if prev ≥ r.startDate.toTime then [prev] else []) ++ [cur] ++
    (if next ≤ breakMax then [next] else []), ?_, ?_⟩
  · unfold getLimitedDateRange
    rw [hr]
    simp only [hbm, hsub, getPrevCurrentNextDates, getTimezoneOffsetDate]
    rw [if_pos ⟨h1, h2⟩]
  · simp [List.mem_append]

/-- Concrete instance: requested date 2020-07-01 lies at `breakMaxDate` of
    the monthly example layer — strictly after its declared end 2020-06-01 —
    and the zeroed instant 2020-07-01 is still in the result. -/
theorem C10_zeroed_current_witness :
    ∃ dates, getLimitedDateRange monthlyExampleLayer (DateSpec.toTime ⟨2020, 6, 1, 0, 0, 0⟩)
        = some dates ∧ mkDate 2020 6 1 ∈ dates :=
  C10_zeroed_current_always_included monthlyExampleLayer
    ⟨⟨2020, 0, 1, 0, 0, 0⟩, ⟨2020, 5, 1, 0, 0, 0⟩, "1"⟩ []
    (DateSpec.toTime ⟨2020, 6, 1, 0, 0, 0⟩) (mkDate 2020 6 1)
    (mkDate 2020 5 1) (mkDate 2020 6 1) (mkDate 2020 7 1)
    rfl (by decide) (by decide) (by decide) (by decide)

/-- For an interval that parses to a number at least 1, the source's
    effective end is exactly the claim's: the end extended by
    `(dateInterval - 1)` period units. -/
theorem dateOverlapEffectiveEnd_eq_claim (period : Period) (r : DateRange) (k : Int)
    (hk : jsNumber r.dateInterval = some k) (h1 : 1 ≤ k) :
    dateOverlapEffectiveEnd period r = some (claimEffectiveEnd period k r) := by
  cases period <;> simp only [dateOverlapEffectiveEnd, claimEffectiveEnd, hk]
  case daily =>
    by_cases h2 : k > 1
    · rw [if_pos h2]
      congr 1
      simp only [msPerDay]
      ring
    · rw [if_neg h2]
      have hk1 : k = 1 := by omega
      subst hk1
      norm_num

/-- The `reduce` of `dateOverlap` over the adjacent pairs: the flag is set
    as soon as any pair hits, and every hitting pair — not just the first —
    is appended in order. -/
theorem overlapFold_spec (period : Period) (pairs : List (DateRange × DateRange))
    (acc : OverlapResult) :
    pairs.foldl (fun acc pc =>
      let previous := pc.1
      let current := pc.2
      let overlap :=
        match dateOverlapEffectiveEnd period previous with
        | some e => decide (e ≥ current.startDate.toTime)
        | none => false
      if overlap then
        { overlap := true, ranges := acc.ranges ++ [{ previous := previous, current := current }] }
      else acc) acc
    = { overlap := acc.overlap || pairs.any (overlapPairHit period),
        ranges := acc.ranges ++ (pairs.filter (overlapPairHit period)).map
          (fun pc => { previous := pc.1, current := pc.2 }) } := by
  induction pairs generalizing acc with
  | nil => simp
  | cons pc rest ih =>
      simp only [List.foldl_cons, List.any_cons, List.filter_cons]
      have hb : (match dateOverlapEffectiveEnd period pc.1 with
        | some e => decide (e ≥ pc.2.startDate.toTime)
        | none => false) = overlapPairHit period pc := rfl
      by_cases h : overlapPairHit period pc = true
      · simp only [hb, h, if_true, ih]
        simp [Bool.or_assoc]
      · have h' : overlapPairHit period pc = false := by
          cases hx : overlapPairHit period pc
          · rfl
          · exact absurd hx h
        simp only [hb, h', Bool.false_eq_true, if_false, ih]
        simp

/-- The result object of `dateOverlap` in closed form. -/
theorem dateOverlap_result_spec (period : Period) (dateRanges : List DateRange) :
    (dateOverlap period dateRanges).1 =
      let sorted := List.insertionSort dateOverlapLE dateRanges
      let pairs := sorted.zip sorted.tail
      { overlap := pairs.any (overlapPairHit period),
        ranges := (pairs.filter (overlapPairHit period)).map
          (fun pc => { previous := pc.1, current := pc.2 }) } := by
  unfold dateOverlap
  simp only [overlapFold_spec]
  rfl

/-- C5: `dateOverlap` sorts a copy of the ranges by parsed start date
    ascending (first conjunct: the sorted array is a permutation of the
    input, sorted by start). For each adjacent pair of the sorted ranges
    whose prior interval parses to `k ≥ 1`, the pair is reported iff the
    prior's end extended by `(k - 1)` period units is `≥` the next's
    declared start (second conjunct, covering every overlapping adjacent
    pair, not just the first). The flag is set iff some pair is reported
    (third conjunct). The daily example ranges 2020-01-01..01-10 and
    2020-01-05..01-20 with interval 1 report `overlap = true` with exactly
    that pair identified (fourth conjunct). -/
theorem C5_adjacent_pair_overlap (period : Period) (dateRanges : List DateRange) :
    ((dateOverlap period dateRanges).2.Perm dateRanges
      ∧ List.Sorted dateOverlapLE (dateOverlap period dateRanges).2)
    ∧ (∀ pc ∈ ((dateOverlap period dateRanges).2.zip (dateOverlap period dateRanges).2.tail),
        ∀ k, jsNumber pc.1.dateInterval = some k → 1 ≤ k →
          (({ previous := pc.1, current := pc.2 } : OverlapPair)
              ∈ (dateOverlap period dateRanges).1.ranges
            ↔ claimEffectiveEnd period k pc.1 ≥ pc.2.startDate.toTime))
    ∧ ((dateOverlap period dateRanges).1.overlap = true
        ↔ (dateOverlap period dateRanges).1.ranges ≠ [])
    ∧ dateOverlap Period.daily [overlapRangeA, overlapRangeB]
        = ({ overlap := true,
             ranges := [{ previous := overlapRangeA, current := overlapRangeB }] },
           [overlapRangeA, overlapRangeB]) := by
  have h2 : (dateOverlap period dateRanges).2 = List.insertionSort dateOverlapLE dateRanges := rfl
  refine ⟨⟨?_, ?_⟩, ?_, ?_, ?_⟩
  · rw [h2]; exact List.perm_insertionSort _ _
  · rw [h2]; exact List.sorted_insertionSort _ _
  · intro pc hpc k hk hk1
    rw [dateOverlap_result_spec]
    simp only
    rw [h2] at hpc
    constructor
    · intro hmem
      rcases List.mem_map.mp hmem with ⟨pc', hpc', heq⟩
      rcases List.mem_filter.mp hpc' with ⟨hpc'mem, hhit⟩
      have h1eq : pc'.1 = pc.1 := congrArg OverlapPair.previous heq
      have h2eq : pc'.2 = pc.2 := congrArg OverlapPair.current heq
      have hpceq : pc' = pc := Prod.ext h1eq h2eq
      rw [hpceq] at hhit
      unfold overlapPairHit at hhit
      rw [dateOverlapEffectiveEnd_eq_claim period pc.1 k hk hk1] at hhit
      simpa using hhit
    · intro hge
      refine List.mem_map.mpr ⟨pc, List.mem_filter.mpr ⟨hpc, ?_⟩, rfl⟩
      unfold overlapPairHit
      rw [dateOverlapEffectiveEnd_eq_claim period pc.1 k hk hk1]
      simpa using hge
  · rw [dateOverlap_result_spec]
    simp only
    rw [List.any_eq_true]
    constructor
    · rintro ⟨pc, hpc, hhit⟩ hnil
      have : pc ∈ List.filter (overlapPairHit period) _ := List.mem_filter.mpr ⟨hpc, hhit⟩
      rw [List.filter_eq_nil_iff.mpr ?_] at this
      · simp at this
      · intro a ha
        by_contra hcon
        have : ({ previous := a.1, current := a.2 } : OverlapPair) ∈
            (List.filter (overlapPairHit period) _).map
              (fun pc => ({ previous := pc.1, current := pc.2 } : OverlapPair)) :=
          List.mem_map.mpr ⟨a, List.mem_filter.mpr ⟨ha, by simpa using hcon⟩, rfl⟩
        rw [hnil] at this
        simp at this
    · intro hne
      by_contra hno
      push_neg at hno
      apply hne
      rw [List.map_eq_nil_iff]
      apply List.filter_eq_nil_iff.mpr
      intro a ha
      intro hhit
      exact absurd hhit (by simpa using hno a ha)
  · decide

/-- The parsed layer states of the v1.1 permalink, piece by piece. -/
theorem parse11Lstates_eq_filterMap (str : String) (cfg : Config) :
    parse11Lstates str cfg = (parse11Pieces str).filterMap (lstateOfPiece cfg) := by
  unfold parse11Lstates
  suffices h : ∀ (l : List String) (acc : List Lstate),
      l.foldl (fun acc id0 =>
        if id0 = "baselayers" ∨ id0 = "overlays" then acc
        else
          let c := parse11Candidate cfg id0
          if cfg.layers.contains c.2 then
            acc ++ [{ id := c.2,
                      attributes :=
                        if c.1 then []
                        else [{ id := "hidden", value := some (AttrValue.boolean true) }] }]
          else acc) acc = acc ++ l.filterMap (lstateOfPiece cfg) by
    simpa using h (parse11Pieces str) []
  intro l
  induction l with
  | nil => intro acc; simp
  | cons x rest ih =>
      intro acc
      rw [List.foldl_cons, ih, List.filterMap_cons]
      by_cases hskip : x = "baselayers" ∨ x = "overlays"
      · have hx : lstateOfPiece cfg x = none := by rw [lstateOfPiece]; exact if_pos hskip
        rw [hx]
        simp [hskip]
      · by_cases hcont : cfg.layers.contains (parse11Candidate cfg x).2 = true
        · have hmem : (parse11Candidate cfg x).2 ∈ cfg.layers := by simpa using hcont
          have hx : lstateOfPiece cfg x = some
              { id := (parse11Candidate cfg x).2,
                attributes := if (parse11Candidate cfg x).1 then []
                  else [{ id := "hidden", value := some (AttrValue.boolean true) }] } := by
            simp [lstateOfPiece, hskip, hmem]
          rw [hx]
          simp [hskip, hmem]
        · have hnmem : (parse11Candidate cfg x).2 ∉ cfg.layers := by simpa using hcont
          have hx : lstateOfPiece cfg x = none := by simp [lstateOfPiece, hskip, hnmem]
          rw [hx]
          simp [hskip, hnmem]

/-- Unrolling `createLayerArrayFromState` one parsed state at a time. -/
theorem createLayerArrayFromState_cons (l : Lstate) (rest : List Lstate) (cfg : Config) :
    createLayerArrayFromState (l :: rest) cfg =
      (createLayerArrayFromState rest cfg).bind (fun arr =>
        if cfg.layers.contains l.id then
          match getLayerSpec l.attributes with
          | some spec => some ({ id := l.id, spec := spec } :: arr)
          | none => none
        else some arr) := by
  unfold createLayerArrayFromState
  rw [List.reverse_cons, List.foldlM_append]
  rcases h : (rest.reverse.foldlM (fun layerArray lstate =>
      if cfg.layers.contains lstate.id = true then
        match getLayerSpec lstate.attributes with
        | some spec => some (addLayer lstate.id spec layerArray)
        | none => none
      else some layerArray) ([] : List ActiveLayer)) with _ | arr
  · rw [h]
    rfl
  · rw [h]
    simp only [List.foldlM_cons, List.foldlM_nil, bind_pure, addLayer]
    rfl

/-- When every parsed id is in the catalog and every attribute list
    decodes, catalog resolution succeeds and keeps the ids in order. -/
theorem createLayerArrayFromState_known (cfg : Config) :
    ∀ (layers : List Lstate),
      (∀ l ∈ layers, cfg.layers.contains l.id = true ∧
        ∃ spec, getLayerSpec l.attributes = some spec) →
      ∃ out, createLayerArrayFromState layers cfg = some out ∧
        out.map ActiveLayer.id = layers.map Lstate.id := by
  intro layers
  induction layers with
  | nil => intro _; exact ⟨[], rfl, rfl⟩
  | cons l rest ih =>
      intro hall
      obtain ⟨out, hout, hids⟩ := ih (fun x hx => hall x (by simp [hx]))
      obtain ⟨hcont, spec, hspec⟩ := hall l (by simp)
      refine ⟨{ id := l.id, spec := spec } :: out, ?_, by simp [hids]⟩
      have hmem : l.id ∈ cfg.layers := by simpa using hcont
      rw [createLayerArrayFromState_cons, hout]
      simp [hmem, hspec]

/-- The ids the v1.1 parser keeps are exactly the referenced ids known to
    the catalog, in order. -/
theorem parse11_ids (str : String) (cfg : Config) :
    (parse11Lstates str cfg).map Lstate.id
      = (parse11CandidateIds str cfg).filter (fun id => cfg.layers.contains id) := by
  rw [parse11Lstates_eq_filterMap]
  unfold parse11CandidateIds
  induction parse11Pieces str with
  | nil => simp
  | cons x rest ih =>
      by_cases hskip : x = "baselayers" ∨ x = "overlays"
      · rcases hskip with h | h <;> subst h <;> simp [lstateOfPiece, ih]
      · push_neg at hskip
        obtain ⟨hs1, hs2⟩ := hskip
        by_cases hcont : cfg.layers.contains (parse11Candidate cfg x).2 = true
        · have hmem : (parse11Candidate cfg x).2 ∈ cfg.layers := by simpa using hcont
          have hx : lstateOfPiece cfg x = some
              { id := (parse11Candidate cfg x).2,
                attributes := if (parse11Candidate cfg x).1 then []
                  else [{ id := "hidden", value := some (AttrValue.boolean true) }] } := by
            simp [lstateOfPiece, hs1, hs2, hmem]
          simp [hx, hs1, hs2, hmem, ih]
        · have hnmem : (parse11Candidate cfg x).2 ∉ cfg.layers := by simpa using hcont
          have hx : lstateOfPiece cfg x = none := by simp [lstateOfPiece, hs1, hs2, hnmem]
          simp [hx, hs1, hs2, hnmem, ih]

/-- C8: for every v1.1 permalink input and catalog the parser returns a
    layer list (never an exception): referenced ids absent from the catalog
    (after redirects) are dropped and parsing continues, while every
    referenced id present in the catalog appears in the result. The second
    conjunct says the resulting ids are exactly the catalog-known referenced
    ids in order; the third that no known referenced id is lost. -/
theorem C8_unknown_ids_dropped (str : String) (cfg : Config) :
    ∃ layers, layersParse11 str cfg = some layers
      ∧ layers.map ActiveLayer.id
          = (parse11CandidateIds str cfg).filter (fun id => cfg.layers.contains id)
      ∧ (∀ id ∈ parse11CandidateIds str cfg, cfg.layers.contains id = true →
          id ∈ layers.map ActiveLayer.id) := by
  have hall : ∀ l ∈ parse11Lstates str cfg, cfg.layers.contains l.id = true ∧
      ∃ spec, getLayerSpec l.attributes = some spec := by
    intro l hl
    rw [parse11Lstates_eq_filterMap] at hl
    rcases List.mem_filterMap.mp hl with ⟨x, hx, hlx⟩
    by_cases hskip : x = "baselayers" ∨ x = "overlays"
    · have hxv : lstateOfPiece cfg x = none := by rw [lstateOfPiece]; exact if_pos hskip
      rw [hxv] at hlx
      cases hlx
    · push_neg at hskip
      obtain ⟨hs1, hs2⟩ := hskip
      by_cases hcont : cfg.layers.contains (parse11Candidate cfg x).2 = true
      · have hmem : (parse11Candidate cfg x).2 ∈ cfg.layers := by simpa using hcont
        have hxv : lstateOfPiece cfg x = some
            { id := (parse11Candidate cfg x).2,
              attributes := if (parse11Candidate cfg x).1 then []
                else [{ id := "hidden", value := some (AttrValue.boolean true) }] } := by
          simp [lstateOfPiece, hs1, hs2, hmem]
        rw [hxv] at hlx
        have hl' := Option.some.inj hlx
        subst hl'
        refine ⟨hcont, ?_⟩
        by_cases hv : (parse11Candidate cfg x).1 = true
        · simp only [hv, if_true]
          exact ⟨{}, rfl⟩
        · simp only [if_neg hv]
          exact ⟨{ hidden := true }, rfl⟩
      · have hnmem : (parse11Candidate cfg x).2 ∉ cfg.layers := by simpa using hcont
        have hxv : lstateOfPiece cfg x = none := by simp [lstateOfPiece, hs1, hs2, hnmem]
        rw [hxv] at hlx
        cases hlx
  obtain ⟨out, hout, hids⟩ := createLayerArrayFromState_known cfg (parse11Lstates str cfg) hall
  refine ⟨out, hout, ?_, ?_⟩
  · rw [hids, parse11_ids]
  · intro id hid hcont
    rw [hids, parse11_ids]
    exact List.mem_filter.mpr ⟨hid, hcont⟩

/-- The adjustment chain never returns an empty list. -/
theorem adjustChain_ne_nil (appNow : Int) (r : DateRange) : adjustChain appNow r ≠ [] := by
  rw [adjustChain]
  split
  · simp
  · split
    · dsimp only
      split
      · simp
      · split
        · split
          · simp
          · simp
        · simp
    · simp

/-- `getLast?` skips the head when the tail is nonempty. -/
theorem getLast?_cons_of_ne_nil {α : Type} (a : α) (l : List α) (h : l ≠ []) :
    (a :: l).getLast? = l.getLast? := by
  cases l with
  | nil => exact absurd rfl h
  | cons b t => simp [List.getLast?_cons_cons]

/-- `endOfYearTime` lands in the requested year. -/
theorem endOfYearTime_year (y : Int) : getUTCFullYear (endOfYearTime y) = y := by
  rw [endOfYearTime, getUTCFullYear_jsSetFullYear]

/-- The last range the adjustment chain produces is a fixpoint of the
    chain (bounded induction on the year distance to `appNow`). -/
theorem adjustChain_fix_aux : ∀ (n : Nat), ∀ (appNow : Int) (r : DateRange),
    (getUTCFullYear appNow + 1 - getUTCFullYear r.startDate.toTime).toNat ≤ n →
    ∀ last, (adjustChain appNow r).getLast? = some last → adjustChain appNow last = [last] := by
  intro n
  induction n using Nat.strong_induction_on with
  | _ n ih =>
    intro appNow r hn last hlast
    rw [adjustChain] at hlast
    split at hlast
    · rename_i heqjs
      simp only [List.getLast?_singleton, Option.some.injEq] at hlast
      subst hlast
      rw [adjustChain, heqjs]
    · rename_i k heqjs
      by_cases hk : k > 1
      · rw [dif_pos hk] at hlast
        try dsimp only at hlast
        by_cases heq : getUTCFullYear r.startDate.toTime = getUTCFullYear appNow
        · rw [dif_pos heq] at hlast
          simp only [List.getLast?_singleton, Option.some.injEq] at hlast
          subst hlast
          rw [adjustChain]
          try dsimp only
          rw [heqjs]
          try dsimp only
          rw [dif_pos hk]
          try dsimp only
          rw [dif_pos heq]
        · rw [dif_neg heq] at hlast
          by_cases hlt : getUTCFullYear r.startDate.toTime < getUTCFullYear appNow
          · rw [dif_pos hlt] at hlast
            try dsimp only at hlast
            by_cases hpush : jsSetFullYear r.startDate.toTime
                (getUTCFullYear r.startDate.toTime + 1) < appNow
            · rw [dif_pos hpush] at hlast
              rw [getLast?_cons_of_ne_nil _ _ (adjustChain_ne_nil _ _)] at hlast
              refine ih (n - 1) ?_ appNow _ ?_ last hlast
              · omega
              · have hy : getUTCFullYear (DateSpec.toTime (specOfTime
                    (jsSetFullYear r.startDate.toTime (getUTCFullYear r.startDate.toTime + 1))))
                    = getUTCFullYear r.startDate.toTime + 1 := by
                  rw [toTime_specOfTime, getUTCFullYear_truncSec, getUTCFullYear_jsSetFullYear]
                dsimp only
                rw [hy]
                omega
            · rw [dif_neg hpush] at hlast
              simp only [List.getLast?_singleton, Option.some.injEq] at hlast
              by_cases hEnd : getUTCFullYear r.endDate.toTime < getUTCFullYear appNow
              · rw [if_pos hEnd] at hlast
                subst hlast
                have hEndY : getUTCFullYear (DateSpec.toTime (specOfTime
                    (endOfYearTime (getUTCFullYear r.endDate.toTime))))
                    = getUTCFullYear r.endDate.toTime := by
                  rw [toTime_specOfTime, getUTCFullYear_truncSec, endOfYearTime_year]
                rw [adjustChain]
                try dsimp only
                rw [heqjs]
                try dsimp only
                rw [dif_pos hk]
                try dsimp only
                rw [dif_neg heq, dif_pos hlt]
                try dsimp only
                rw [dif_neg hpush]
                rw [hEndY, if_pos hEnd]
              · rw [if_neg hEnd] at hlast
                subst hlast
                rw [adjustChain]
                try dsimp only
                rw [heqjs]
                try dsimp only
                rw [dif_pos hk]
                try dsimp only
                rw [dif_neg heq, dif_pos hlt]
                try dsimp only
                rw [dif_neg hpush, if_neg hEnd]
          · rw [dif_neg hlt] at hlast
            simp only [List.getLast?_singleton, Option.some.injEq] at hlast
            subst hlast
            rw [adjustChain]
            try dsimp only
            rw [heqjs]
            try dsimp only
            rw [dif_pos hk]
            try dsimp only
            rw [dif_neg heq, dif_neg hlt]
      · rw [dif_neg hk] at hlast
        simp only [List.getLast?_singleton, Option.some.injEq] at hlast
        subst hlast
        rw [adjustChain]
        try dsimp only
        rw [heqjs]
        try dsimp only
        rw [dif_neg hk]

/-- The last range the adjustment chain produces is a fixpoint. -/
theorem adjustChain_fix (appNow : Int) (r : DateRange) (last : DateRange)
    (hlast : (adjustChain appNow r).getLast? = some last) :
    adjustChain appNow last = [last] :=
  adjustChain_fix_aux (getUTCFullYear appNow + 1 - getUTCFullYear r.startDate.toTime).toNat
    appNow r le_rfl last hlast

/-- One `applyDateRangeAdjustment` loop is idempotent on the range list:
    the second pass re-adjusts only the final range, which the first pass
    left as a fixpoint of the chain. -/
theorem adjustRanges_idem (appNow : Int) (rs : List DateRange) :
    adjustRanges appNow (adjustRanges appNow rs) = adjustRanges appNow rs := by
  unfold adjustRanges
  rcases hlast : rs.getLast? with _ | r
  · rfl
  · dsimp only
    have hne : adjustChain appNow r ≠ [] := adjustChain_ne_nil appNow r
    rcases hcl : (adjustChain appNow r).getLast? with _ | clast
    · rcases hc : adjustChain appNow r with _ | ⟨a, t⟩
      · exact absurd hc hne
      · rw [hc, List.getLast?_eq_getLast _ (List.cons_ne_nil a t)] at hcl
        cases hcl
    · have hfix : adjustChain appNow clast = [clast] := adjustChain_fix appNow r clast hcl
      have hA : (rs.dropLast ++ adjustChain appNow r).getLast? = some clast := by
        rw [List.getLast?_append_of_ne_nil _ hne]
        exact hcl
      rw [hA]
      dsimp only
      rw [hfix, List.dropLast_append_of_ne_nil _ hne, List.append_assoc]
      congr 1
      have h2 : (adjustChain appNow r).getLast hne = clast := by
        rw [List.getLast?_eq_getLast _ hne] at hcl
        exact Option.some.inj hcl
      rw [← h2]
      exact List.dropLast_append_getLast hne

/-- Per-layer idempotence of the adjustment pass. -/
theorem applyDateRangeAdjustment_idem (appNow : Int) (layer : LayerDef) :
    applyDateRangeAdjustment appNow (applyDateRangeAdjustment appNow layer)
      = applyDateRangeAdjustment appNow layer := by
  unfold applyDateRangeAdjustment
  rcases hdr : layer.dateRanges with _ | rs
  · dsimp only
    rw [hdr]
  · dsimp only
    by_cases hc : ¬layer.ongoing ∨ layer.period = Period.subdaily
    · rw [if_pos hc, hdr]
      dsimp only
      rw [if_pos hc]
    · rw [if_neg hc]
      dsimp only
      rw [if_neg hc, adjustRanges_idem]

/-- C6: for every layer catalog and fixed `appNow`, applying
    `adjustActiveDateRanges` twice with the same `appNow` leaves every
    layer's `dateRanges` equal to the result of applying it once. -/
theorem C6_adjust_idempotent (layers : List LayerDef) (appNow : Int) :
    adjustActiveDateRanges (adjustActiveDateRanges layers appNow) appNow
      = adjustActiveDateRanges layers appNow := by
  unfold adjustActiveDateRanges
  rw [List.map_map]
  exact List.map_congr_left (fun l _ => applyDateRangeAdjustment_idem appNow l)

/-- `new Date(y, m, d)` is strictly monotone in the absolute month. -/
theorem mkDate_lt_of_month_lt {y1 m1 y2 m2 d : Int} (h : 12 * y1 + m1 < 12 * y2 + m2) :
    mkDate y1 m1 d < mkDate y2 m2 d := by
  unfold mkDate jsUTC
  have hms := monthStartDay_strictMono h
  simp only [msPerDay, msPerHour, msPerMinute]
  omega

/-- `new Date(y, m, d)` is strictly monotone in the day. -/
theorem mkDate_lt_of_day_lt {y m d1 d2 : Int} (h : d1 < d2) :
    mkDate y m d1 < mkDate y m d2 := by
  unfold mkDate jsUTC
  simp only [msPerDay, msPerHour, msPerMinute]
  omega

/-- In a strictly ascending list every element is at most the last. -/
theorem le_getLast_of_pairwise_lt : ∀ (l : List Int), List.Pairwise (· < ·) l →
    ∀ x ∈ l, ∀ last, l.getLast? = some last → x ≤ last := by
  intro l
  induction l with
  | nil => intro _ x hx; cases hx
  | cons a t ih =>
      intro hp x hx last hlast
      rcases t with _ | ⟨b, t2⟩
      · simp at hlast hx
        omega
      · rw [List.getLast?_cons_cons] at hlast
        rcases List.mem_cons.mp hx with rfl | hx2
        · have hlm : last ∈ b :: t2 := by
            have := List.mem_getLast?_eq_getLast (l := b :: t2) (x := last) ?_
            · obtain ⟨hne, heq⟩ := this
              rw [heq]
              exact List.getLast_mem hne
            · rw [hlast]; rfl
          have := (List.pairwise_cons.mp hp).1 last hlm
          omega
        · exact ih (List.pairwise_cons.mp hp).2 x hx2 last hlast

/-- A fold appending a strictly increasing candidate under a bound keeps
    the array strictly ascending. -/
theorem foldl_append_if_sorted (g : Nat → Int) (M : Int)
    (hg : ∀ i j : Nat, i < j → g i < g j) :
    ∀ (n : Nat) (a : List Int),
      List.Pairwise (· < ·) a →
      (∀ x ∈ a, ∀ j : Nat, x < g j) →
      List.Pairwise (· < ·) ((List.range n).foldl
        (fun arr i => if g i < M then arr ++ [g i] else arr) a)
      ∧ (∀ x ∈ (List.range n).foldl
          (fun arr i => if g i < M then arr ++ [g i] else arr) a, ∀ j : Nat, n ≤ j → x < g j) := by
  intro n
  induction n with
  | zero =>
      intro a ha hb
      simp only [List.range_zero, List.foldl_nil]
      exact ⟨ha, fun x hx j _ => hb x hx j⟩
  | succ m ih =>
      intro a ha hb
      rw [List.range_succ, List.foldl_append, List.foldl_cons, List.foldl_nil]
      obtain ⟨hp, hbnd⟩ := ih a ha hb
      by_cases hc : g m < M
      · rw [if_pos hc]
        constructor
        · apply List.pairwise_append.mpr
          refine ⟨hp, List.pairwise_singleton _ _, ?_⟩
          intro x hx y hy
          have hy' : y = g m := by simpa using hy
          subst hy'
          exact hbnd x hx m le_rfl
        · intro x hx j hj
          rcases List.mem_append.mp hx with hx | hx
          · exact hbnd x hx j (by omega)
          · have hx' : x = g m := by simpa using hx
            subst hx'
            exact hg m j (by omega)
      · rw [if_neg hc]
        exact ⟨hp, fun x hx j hj => hbnd x hx j (by omega)⟩

/-- `getDateArrayLastDateInOrder` is the identity when the incoming date is
    beyond every date already in the array. -/
theorem getDateArrayLastDateInOrder_id (t : Int) (l : List Int)
    (h : ∀ x ∈ l, x < t) : getDateArrayLastDateInOrder t l = l := by
  unfold getDateArrayLastDateInOrder
  rcases hl : l.getLast? with _ | last
  · rfl
  · have hne : l ≠ [] := by
      intro hnil
      subst hnil
      cases hl
    have hmem : last ∈ l := by
      rw [List.getLast?_eq_getLast _ hne] at hl
      rw [← Option.some.inj hl]
      exact List.getLast_mem hne
    dsimp only
    rw [if_neg (not_lt.mpr (le_of_lt (h last hmem)))]

/-- Appending a strict upper bound keeps an array strictly ascending. -/
theorem append_single_sorted (a : List Int) (t : Int) (ha : List.Pairwise (· < ·) a)
    (hb : ∀ x ∈ a, x < t) :
    List.Pairwise (· < ·) (a ++ [t]) ∧ ∀ x ∈ a ++ [t], x < t ∨ x = t := by
  constructor
  · apply List.pairwise_append.mpr
    refine ⟨ha, List.pairwise_singleton _ _, ?_⟩
    intro x hx y hy
    have hy' : y = t := by simpa using hy
    subst hy'
    exact hb x hx
  · intro x hx
    rcases List.mem_append.mp hx with hx | hx
    · exact Or.inl (hb x hx)
    · exact Or.inr (by simpa using hx)

/-- A fold over an index range whose step, fed an ascending array bounded by
    the `i`-th candidate, returns an ascending array of dates at most that
    candidate, yields an ascending array (covers the month/day builders in
    both limits modes: candidates are strictly increasing and each step
    appends at most the current candidate). -/
theorem foldl_sorted_invariant (g : Nat → Int) (F : List Int → Nat → List Int)
    (hg : ∀ i j : Nat, i < j → g i < g j)
    (hF : ∀ (arr : List Int) (i : Nat), List.Pairwise (· < ·) arr →
        (∀ x ∈ arr, x < g i) →
        List.Pairwise (· < ·) (F arr i) ∧ ∀ x ∈ F arr i, x < g i ∨ x = g i) :
    ∀ (n : Nat) (a : List Int),
      List.Pairwise (· < ·) a →
      (∀ x ∈ a, ∀ j : Nat, x < g j) →
      List.Pairwise (· < ·) ((List.range n).foldl F a)
      ∧ ∀ x ∈ (List.range n).foldl F a, ∀ j : Nat, n ≤ j → x < g j := by
  intro n
  induction n with
  | zero =>
      intro a ha hb
      simp only [List.range_zero, List.foldl_nil]
      exact ⟨ha, fun x hx j _ => hb x hx j⟩
  | succ m ih =>
      intro a ha hb
      rw [List.range_succ, List.foldl_append, List.foldl_cons, List.foldl_nil]
      obtain ⟨hp, hbnd⟩ := ih a ha hb
      have hstep := hF _ m hp (fun x hx => hbnd x hx m le_rfl)
      refine ⟨hstep.1, ?_⟩
      intro x hx j hj
      rcases hstep.2 x hx with hlt | heq
      · exact lt_trans hlt (hg m j (by omega))
      · subst heq
        exact hg m j (by omega)

/-- A fold whose guard only appends candidates beyond the array's last
    element keeps the array strictly ascending (the subdaily builder). -/
theorem foldl_guard_sorted (g : Nat → Int) (m0 : Int) :
    ∀ (l : List Nat) (a : List Int), List.Pairwise (· < ·) a →
      List.Pairwise (· < ·) (l.foldl (fun arr j =>
        if g j ≥ m0 ∧ (match arr.getLast? with
            | some last => decide (g j > last)
            | none => true) = true then arr ++ [g j] else arr) a) := by
  intro l
  induction l with
  | nil => exact fun a ha => ha
  | cons j rest ih =>
      intro a ha
      rw [List.foldl_cons]
      apply ih
      by_cases hc : g j ≥ m0 ∧ (match a.getLast? with
          | some last => decide (g j > last)
          | none => true) = true
      · rw [if_pos hc]
        apply List.pairwise_append.mpr
        refine ⟨ha, List.pairwise_singleton _ _, ?_⟩
        intro x hx y hy
        have hy' : y = g j := by simpa using hy
        subst hy'
        obtain ⟨_, hlast⟩ := hc
        rcases hl : a.getLast? with _ | last
        · have hnil : a = [] := by
            cases a with
            | nil => rfl
            | cons c t =>
                rw [List.getLast?_eq_getLast _ (List.cons_ne_nil c t)] at hl
                cases hl
          subst hnil
          cases hx
        · rw [hl] at hlast
          have hgt : g j > last := of_decide_eq_true hlast
          have hxle : x ≤ last := le_getLast_of_pairwise_lt a ha x hx last hl
          omega
      · rw [if_neg hc]
        exact ha

/-- The yearly builder produces a strictly ascending array from an empty
    one (no limits). -/
theorem getYearDateRange_sorted (cur minDate maxDate : Int) (k? : Option Int)
    (hk : ∀ x, k? = some x → 1 ≤ x) :
    List.Pairwise (· < ·) (getYearDateRange cur minDate maxDate k? []) := by
  unfold getYearDateRange
  rcases k? with _ | k
  · simp
  · have hk1 : 1 ≤ k := hk k rfl
    dsimp only
    by_cases hin : cur ≥ minDate ∧ cur ≤ mkDate (getUTCFullYear maxDate + k)
        (getUTCMonth maxDate) (getUTCDate maxDate)
    · rw [if_pos hin]
      exact (foldl_append_if_sorted
        (fun i => mkDate (getUTCFullYear minDate + (i : Int) * k) (getUTCMonth minDate)
          (getUTCDate minDate))
        (mkDate (getUTCFullYear maxDate + k) (getUTCMonth maxDate) (getUTCDate maxDate))
        (fun i j hij => mkDate_lt_of_month_lt (by
          have hij' : (i : Int) < (j : Int) := by exact_mod_cast hij
          have := Int.mul_lt_mul_of_pos_right hij' (by omega : (0:Int) < k)
          omega))
        _ [] (List.Pairwise.nil) (fun x hx => absurd hx (List.not_mem_nil x))).1
    · rw [if_neg hin]
      simp

/-- The monthly builder produces a strictly ascending array from an empty
    one, with or without start/end limits. -/
theorem getMonthDateRange_sorted (lim : Option (Int × Int)) (cur minDate maxDate : Int)
    (k? : Option Int) (hk : ∀ x, k? = some x → 1 ≤ x) :
    List.Pairwise (· < ·) (getMonthDateRange lim cur minDate maxDate k? []) := by
  unfold getMonthDateRange
  rcases k? with _ | k
  · simp
  · have hk1 : 1 ≤ k := hk k rfl
    dsimp only
    split
    · refine (foldl_sorted_invariant
        (fun i => getTimezoneOffsetDate (mkDate (getUTCFullYear minDate)
          (getUTCMonth minDate + (i : Int) * k) (getUTCDate minDate)))
        _
        (fun i j hij => mkDate_lt_of_month_lt (by
          have hij' : (i : Int) < (j : Int) := by exact_mod_cast hij
          have := Int.mul_lt_mul_of_pos_right hij' (by omega : (0:Int) < k)
          omega))
        ?_ _ [] List.Pairwise.nil (fun x hx => absurd hx (List.not_mem_nil x))).1
      intro arr i ha hb
      dsimp only at hb ⊢
      split
      · rcases lim with _ | ⟨sl, el⟩
        · exact append_single_sorted arr _ ha hb
        · dsimp only
          have harr2 : (if arr.length > 0 then getDateArrayLastDateInOrder
              (getTimezoneOffsetDate (mkDate (getUTCFullYear minDate)
                (getUTCMonth minDate + (i : Int) * k) (getUTCDate minDate))) arr else arr)
              = arr := by
            split
            · exact getDateArrayLastDateInOrder_id _ _ hb
            · rfl
          rw [harr2]
          split
          · split
            · exact append_single_sorted arr _ ha hb
            · exact ⟨ha, fun x hx => Or.inl (hb x hx)⟩
          · exact append_single_sorted arr _ ha hb
      · exact ⟨ha, fun x hx => Or.inl (hb x hx)⟩
    · simp

/-- The daily builder produces a strictly ascending array from an empty
    one, with or without start/end limits. -/
theorem getDayDateRange_sorted (lim : Option (Int × Int)) (cur minDate maxDate : Int)
    (k? : Option Int) (hk : ∀ x, k? = some x → 1 ≤ x) :
    List.Pairwise (· < ·) (getDayDateRange lim cur minDate maxDate k? []) := by
  unfold getDayDateRange
  rcases k? with _ | k
  · simp
  · have hk1 : 1 ≤ k := hk k rfl
    dsimp only
    split
    · refine (foldl_sorted_invariant
        (fun i => getTimezoneOffsetDate (mkDate (getUTCFullYear minDate)
          (getUTCMonth minDate) (getUTCDate minDate + (i : Int) * k)))
        _
        (fun i j hij => mkDate_lt_of_day_lt (by
          have hij' : (i : Int) < (j : Int) := by exact_mod_cast hij
          have := Int.mul_lt_mul_of_pos_right hij' (by omega : (0:Int) < k)
          omega))
        ?_ _ [] List.Pairwise.nil (fun x hx => absurd hx (List.not_mem_nil x))).1
      intro arr i ha hb
      dsimp only at hb ⊢
      split
      · rcases lim with _ | ⟨sl, el⟩
        · exact append_single_sorted arr _ ha hb
        · dsimp only
          have harr2 : (if arr.length > 0 then getDateArrayLastDateInOrder
              (getTimezoneOffsetDate (mkDate (getUTCFullYear minDate)
                (getUTCMonth minDate) (getUTCDate minDate + (i : Int) * k))) arr else arr)
              = arr := by
            split
            · exact getDateArrayLastDateInOrder_id _ _ hb
            · rfl
          rw [harr2]
          split
          · split
            · exact append_single_sorted arr _ ha hb
            · exact ⟨ha, fun x hx => Or.inl (hb x hx)⟩
          · exact append_single_sorted arr _ ha hb
      · exact ⟨ha, fun x hx => Or.inl (hb x hx)⟩
    · simp

/-- The subdaily builder produces a strictly ascending array from an empty
    one, with or without start/end limits: its guard refuses any date not
    beyond the last. -/
theorem getSubdailyDateRange_sorted (lim : Option (Int × Int)) (cur minDate maxDate : Int)
    (k? : Option Int) :
    List.Pairwise (· < ·) (getSubdailyDateRange lim cur minDate maxDate k? []) := by
  unfold getSubdailyDateRange
  rcases k? with _ | k
  · simp
  · dsimp only
    split
    · simp
    · rcases lim with _ | ⟨sl, el⟩ <;>
        · dsimp only
          split
          all_goals try split
          all_goals try split
          all_goals try split
          all_goals try split
          all_goals first
            | exact foldl_guard_sorted _ _ _ [] List.Pairwise.nil
            | simp

/-- The previous/current/next candidates are strictly ordered. -/
theorem addSubDates_lt (period : Period) (cy cm cd sm sd p c nx : Int)
    (h : addSubDatesBasedOnPeriod period cy cm cd sm sd = some (p, c, nx)) :
    p < c ∧ c < nx := by
  cases period <;>
    simp only [addSubDatesBasedOnPeriod, Option.some.injEq, Prod.mk.injEq] at h
  case subdaily => cases h
  case yearly =>
    obtain ⟨h1, h2, h3⟩ := h
    subst h1; subst h2; subst h3
    exact ⟨mkDate_lt_of_month_lt (by omega), mkDate_lt_of_month_lt (by omega)⟩
  case monthly =>
    obtain ⟨h1, h2, h3⟩ := h
    subst h1; subst h2; subst h3
    exact ⟨mkDate_lt_of_month_lt (by omega), mkDate_lt_of_month_lt (by omega)⟩
  case daily =>
    obtain ⟨h1, h2, h3⟩ := h
    subst h1; subst h2; subst h3
    exact ⟨mkDate_lt_of_day_lt (by omega), mkDate_lt_of_day_lt (by omega)⟩

/-- The limited-mode result list is strictly ascending. -/
theorem getPrevCurrentNextDates_sorted (c p nx mn mx : Int) (h1 : p < c) (h2 : c < nx) :
    List.Pairwise (· < ·) (getPrevCurrentNextDates c p nx mn mx) := by
  unfold getPrevCurrentNextDates getTimezoneOffsetDate
  split <;> split <;> simp_all <;> omega

/-- Whatever limited mode returns is strictly ascending. -/
theorem getLimitedDateRange_sorted (defn : LayerDef) (cur : Int) (lim : List Int)
    (h : getLimitedDateRange defn cur = some lim) : List.Pairwise (· < ·) lim := by
  unfold getLimitedDateRange at h
  split at h
  · dsimp only at h
    split at h
    · cases h
    · split at h
      · split at h
        · rename_i dateRange rest breakMax hbm hin triple p c nx hsub
          have hl := Option.some.inj h
          subst hl
          obtain ⟨hpc, hcn⟩ := addSubDates_lt _ _ _ _ _ _ _ _ _ hsub
          exact getPrevCurrentNextDates_sorted _ _ _ _ _ hpc hcn
        · cases h
      · have hl := Option.some.inj h
        subst hl
        exact List.Pairwise.nil
  · cases h

/-- One resolver step on the initial state (single range, any limits)
    leaves a strictly ascending date array. -/
theorem datesInDateRangesStep_single_sorted (defn : LayerDef) (r : DateRange)
    (date appNow : Int) (sdri : Bool) (lim : Option (Int × Int))
    (hk : ∀ k, jsNumber r.dateInterval = some k → 1 ≤ k) :
    ∀ st', datesInDateRangesStep defn 1 lim appNow sdri
        ⟨[], date, false, none⟩ 0 r = some st' →
      List.Pairwise (· < ·) st'.dateArray := by
  intro st' h
  unfold datesInDateRangesStep at h
  rcases lim with _ | ⟨sl, el⟩
  · dsimp only at h
    split at h
    · have hst := Option.some.inj h
      subst hst
      simp
    · split at h
      · split at h
        · rename_i lim hlim
          have hst := Option.some.inj h
          subst hst
          exact getLimitedDateRange_sorted defn date lim hlim
        · cases h
      · have hst := Option.some.inj h
        subst hst
        rcases hp : defn.period
        case yearly =>
          dsimp only
          rw [if_pos rfl]
          exact getYearDateRange_sorted date r.startDate.toTime r.endDate.toTime
            (jsNumber r.dateInterval) (fun x hx => hk x hx)
        case monthly =>
          dsimp only
          rw [if_neg (by decide)]
          exact getMonthDateRange_sorted none date r.startDate.toTime r.endDate.toTime
            (jsNumber r.dateInterval) (fun x hx => hk x hx)
        case daily =>
          dsimp only
          rw [if_neg (by decide)]
          exact getDayDateRange_sorted none date r.startDate.toTime r.endDate.toTime
            (jsNumber r.dateInterval) (fun x hx => hk x hx)
        case subdaily =>
          dsimp only
          rw [if_neg (by decide)]
          exact getSubdailyDateRange_sorted none date r.startDate.toTime r.endDate.toTime
            (jsNumber r.dateInterval)
  · dsimp only at h
    split at h
    · have hst := Option.some.inj h
      subst hst
      dsimp only
      split <;> simp
    · have hst := Option.some.inj h
      subst hst
      rcases hp : defn.period
      case yearly =>
        dsimp only
        rw [if_pos rfl]
        exact getYearDateRange_sorted _ r.startDate.toTime _
          (jsNumber r.dateInterval) (fun x hx => hk x hx)
      case monthly =>
        dsimp only
        rw [if_neg (show ¬(Period.monthly = Period.yearly) from by decide)]
        exact getMonthDateRange_sorted (some (sl, el)) _ r.startDate.toTime _
          (jsNumber r.dateInterval) (fun x hx => hk x hx)
      case daily =>
        dsimp only
        rw [if_neg (show ¬(Period.daily = Period.yearly) from by decide)]
        exact getDayDateRange_sorted (some (sl, el)) _ r.startDate.toTime _
          (jsNumber r.dateInterval) (fun x hx => hk x hx)
      case subdaily =>
        dsimp only
        rw [if_neg (show ¬(Period.subdaily = Period.yearly) from by decide)]
        exact getSubdailyDateRange_sorted (some (sl, el)) _ r.startDate.toTime _
          (jsNumber r.dateInterval)

/-- C1 (amended): for a layer with a single date range whose interval
    parses to a number at least 1, every date sequence `datesInDateRanges`
    returns — for every requested date, every combination of optional
    start/end limits, and every appNow — is strictly ascending (hence has
    no duplicate instants). The original claim over every layer is false:
    see the counterexample with two overlapping ranges. -/
theorem C1_single_range_sorted (defn : LayerDef) (r : DateRange) (date appNow : Int)
    (startDateLimit endDateLimit : Option Int)
    (hr : defn.dateRanges = some [r])
    (hk : ∀ k, jsNumber r.dateInterval = some k → 1 ≤ k) :
    ∀ dates, datesInDateRanges defn date startDateLimit endDateLimit appNow = some dates →
      List.Pairwise (· < ·) dates := by
  intro dates h
  unfold datesInDateRanges at h
  rw [hr] at h
  simp only [List.enum, List.enumFrom, List.foldl_cons, List.foldl_nil, List.length_cons,
    List.length_nil] at h
  obtain ⟨st', hstep, hda⟩ := Option.map_eq_some'.mp h
  rw [← hda]
  exact datesInDateRangesStep_single_sorted defn r date appNow _ _ hk st' hstep

/-- C1: the claim asserts the resolved sequence is always strictly
    ascending with no duplicates; a daily layer with two overlapping ranges
    (2020-01-01..01-10 and 2020-01-08..01-20) requested at 2020-01-09
    returns the concatenation of both ranges' days, which is out of order
    and repeats 2020-01-08..01-10. -/
theorem C1_overlapping_ranges_counterexample :
    ∃ dates, datesInDateRanges overlappingDailyLayer (DateSpec.toTime ⟨2020, 0, 9, 0, 0, 0⟩)
        none none 0 = some dates ∧ ¬ List.Pairwise (· < ·) dates :=
  ⟨_, rfl, by decide⟩

/-- Concrete instance of the amended C1 theorem: the monthly example layer
    resolves 2020-03-15 to three strictly ascending dates. -/
theorem C1_single_range_sorted_witness :
    List.Pairwise (· < ·) [DateSpec.toTime ⟨2020, 1, 1, 0, 0, 0⟩,
      DateSpec.toTime ⟨2020, 2, 1, 0, 0, 0⟩, DateSpec.toTime ⟨2020, 3, 1, 0, 0, 0⟩] :=
  C1_single_range_sorted monthlyExampleLayer
    ⟨⟨2020, 0, 1, 0, 0, 0⟩, ⟨2020, 5, 1, 0, 0, 0⟩, "1"⟩
    (DateSpec.toTime ⟨2020, 2, 15, 0, 0, 0⟩) 0 none none rfl
    (fun k hkk => by
      have h1 : some (1 : Int) = some k := Eq.trans (by rfl) hkk
      exact le_of_eq (Option.some.inj h1))
    [DateSpec.toTime ⟨2020, 1, 1, 0, 0, 0⟩,
      DateSpec.toTime ⟨2020, 2, 1, 0, 0, 0⟩, DateSpec.toTime ⟨2020, 3, 1, 0, 0, 0⟩] rfl

theorem charSplitList_no_sep (sep : Char) : ∀ (l : List Char), sep ∉ l →
    charSplitList sep l = [l] := by
  intro l
  induction l with
  | nil => intro _; rfl
  | cons c rest ih =>
      intro h
      have hc : ¬c = sep := fun hq => h (hq ▸ List.mem_cons_self c rest)
      have hr : sep ∉ rest := fun hq => h (List.mem_cons_of_mem c hq)
      rw [charSplitList, if_neg hc, ih hr]

theorem charSplitList_append (sep : Char) : ∀ (l1 l2 : List Char), sep ∉ l1 →
    charSplitList sep (l1 ++ sep :: l2) = l1 :: charSplitList sep l2 := by
  intro l1
  induction l1 with
  | nil =>
      intro l2 _
      simp only [List.nil_append]
      rw [charSplitList, if_pos rfl]
  | cons c rest ih =>
      intro l2 h
      have hc : ¬c = sep := fun hq => h (hq ▸ List.mem_cons_self c rest)
      have hr : sep ∉ rest := fun hq => h (List.mem_cons_of_mem c hq)
      rw [List.cons_append, charSplitList, if_neg hc, ih l2 hr]

theorem charSplit_joinSep (sep : Char) : ∀ (parts : List String), parts ≠ [] →
    (∀ p ∈ parts, sep ∉ p.toList) →
    charSplitList sep (joinSep sep parts).toList = parts.map String.toList := by
  intro parts
  induction parts with
  | nil => intro h; exact absurd rfl h
  | cons x rest ih =>
      intro _ hs
      cases rest with
      | nil =>
          rw [show joinSep sep [x] = x from rfl]
          rw [charSplitList_no_sep sep _ (hs x (by simp))]
          rfl
      | cons y rs =>
          rw [show joinSep sep (x :: y :: rs) = x ++ String.mk [sep] ++ joinSep sep (y :: rs)
            from rfl]
          have htl : (x ++ String.mk [sep] ++ joinSep sep (y :: rs)).toList
              = x.toList ++ sep :: (joinSep sep (y :: rs)).toList := by
            simp [String.toList]
          rw [htl, charSplitList_append sep _ _ (hs x (by simp)),
            ih (by simp) (fun p hp => hs p (by simp [hp]))]
          rfl

theorem jsSplit_joinSep (sep : Char) (parts : List String) (hne : parts ≠ [])
    (hs : ∀ p ∈ parts, sep ∉ p.toList) :
    jsSplit sep (joinSep sep parts) = parts := by
  unfold jsSplit
  rw [charSplit_joinSep sep parts hne hs, List.map_map]
  have : (String.mk ∘ String.toList) = id := by
    funext s
    rfl
  rw [this, List.map_id]

theorem takeWhile_append_all {p : Char → Bool} : ∀ (l1 l2 : List Char), (∀ c ∈ l1, p c = true) →
    (l1 ++ l2).takeWhile p = l1 ++ l2.takeWhile p := by
  intro l1
  induction l1 with
  | nil => intro l2 _; simp
  | cons c rest ih =>
      intro l2 h
      rw [List.cons_append, List.takeWhile_cons, if_pos (h c (by simp)), List.cons_append,
        ih l2 (fun x hx => h x (by simp [hx]))]

theorem splitLayerTokensGo_serialized : ∀ (fuel : Nat) (tokens : List String),
    (∀ tok ∈ tokens, TokenBody tok) →
    (joinSep ',' tokens).toList.length ≤ fuel →
    splitLayerTokensGo fuel (joinSep ',' tokens).toList = tokens := by
  intro fuel
  induction fuel with
  | zero =>
      intro tokens htb hlen
      cases tokens with
      | nil => rfl
      | cons tok rest =>
          obtain ⟨idc, inner, hshape, hne, hidc, hinner⟩ := htb tok (by simp)
          have hjoin : (joinSep ',' (tok :: rest)).toList.length ≥ tok.toList.length := by
            cases rest with
            | nil => simp [joinSep]
            | cons y rs =>
                rw [show joinSep ',' (tok :: y :: rs)
                  = tok ++ String.mk [','] ++ joinSep ',' (y :: rs) from rfl]
                simp [String.toList]
          have htoklen : tok.toList.length ≥ 1 := by
            rcases hshape with h | h <;> rw [h] <;> cases idc <;> simp_all
          omega
  | succ f ih =>
      intro tokens htb hlen
      cases tokens with
      | nil => rfl
      | cons tok rest =>
          obtain ⟨idc, inner, hshape, hne, hidc, hinner⟩ := htb tok (by simp)
          obtain ⟨c, idtail, hidc2⟩ : ∃ c idtail, idc = c :: idtail := by
            cases idc with
            | nil => exact absurd rfl hne
            | cons c t => exact ⟨c, t, rfl⟩
          subst hidc2
          have hcnd : ¬(c = '(' ∨ c = ',') := by
            have := hidc c (by simp)
            tauto
          have hp : ∀ x ∈ idtail, (x != '(' && x != ',') = true := by
            intro x hx
            have := hidc x (by simp [hx])
            simp only [bne_iff_ne, ne_eq, Bool.and_eq_true, decide_eq_true_eq]
            tauto
          have hpinner : ∀ x ∈ inner, (x != ')') = true := by
            intro x hx
            have := hinner x hx
            simp only [bne_iff_ne, ne_eq, decide_eq_true_eq]
            tauto
          have hGoNil : splitLayerTokensGo f [] = [] := by cases f <;> rfl
          have hrestTB : ∀ tok ∈ rest, TokenBody tok := fun t ht => htb t (by simp [ht])
          cases rest with
          | nil =>
              have hjoin : (joinSep ',' [tok]).toList = tok.toList := rfl
              rw [hjoin] at hlen ⊢
              rcases hshape with htok | htok
              · rw [htok]
                rw [splitLayerTokensGo, if_neg hcnd]
                have htw : idtail.takeWhile (fun ch => ch != '(' && ch != ',') = idtail := by
                  have := takeWhile_append_all idtail [] hp
                  simpa using this
                rw [htw, List.drop_length]
                try simp only []
                try rw [hGoNil]
                rw [htok.symm]
                try rfl
              · rw [htok]
                have hchars : (c :: idtail) ++ '(' :: (inner ++ [')'])
                    = c :: (idtail ++ '(' :: (inner ++ [')'])) := by simp
                rw [hchars, splitLayerTokensGo, if_neg hcnd]
                have htw : (idtail ++ '(' :: (inner ++ [')'])).takeWhile
                    (fun ch => ch != '(' && ch != ',') = idtail := by
                  rw [takeWhile_append_all _ _ hp, List.takeWhile_cons]
                  simp
                rw [htw, List.drop_left]
                try simp only []
                have hcont : (inner ++ [')']).contains ')' = true := by
                  simp
                rw [if_pos hcont]
                have htwi : (inner ++ [')']).takeWhile (fun ch => ch != ')') = inner := by
                  rw [takeWhile_append_all _ _ hpinner, List.takeWhile_cons]
                  simp
                rw [htwi]
                have hdropi : (inner ++ [')']).drop (inner.length + 1) = [] := by
                  rw [show inner.length + 1 = (inner ++ [')']).length by simp, List.drop_length]
                rw [hdropi]
                rw [if_neg (by simp : ¬(List.head? ([] : List Char) = some ','))]
                try rw [hGoNil]
                rw [← htok]
                try rfl
          | cons y rs =>
              have hjoin : (joinSep ',' (tok :: y :: rs)).toList
                  = tok.toList ++ ',' :: (joinSep ',' (y :: rs)).toList := by
                rw [show joinSep ',' (tok :: y :: rs)
                  = tok ++ String.mk [','] ++ joinSep ',' (y :: rs) from rfl]
                simp [String.toList]
              rw [hjoin] at hlen ⊢
              have hlenJ : (joinSep ',' (y :: rs)).toList.length ≤ f := by
                have h1 : tok.toList.length ≥ 1 := by
                  rcases hshape with h | h <;> rw [h] <;> simp
                simp only [List.length_append, List.length_cons] at hlen
                omega
              rcases hshape with htok | htok
              · rw [htok]
                have hchars : (c :: idtail) ++ ',' :: (joinSep ',' (y :: rs)).toList
                    = c :: (idtail ++ ',' :: (joinSep ',' (y :: rs)).toList) := by simp
                rw [hchars, splitLayerTokensGo, if_neg hcnd]
                have htw : (idtail ++ ',' :: (joinSep ',' (y :: rs)).toList).takeWhile
                    (fun ch => ch != '(' && ch != ',') = idtail := by
                  rw [takeWhile_append_all _ _ hp, List.takeWhile_cons]
                  simp
                rw [htw, List.drop_left]
                try simp only []
                rw [ih (y :: rs) hrestTB hlenJ, htok.symm]
                try rfl
              · rw [htok]
                have hchars : ((c :: idtail) ++ '(' :: (inner ++ [')']))
                      ++ ',' :: (joinSep ',' (y :: rs)).toList
                    = c :: (idtail ++ '(' :: (inner ++ (')' :: ',' ::
                        (joinSep ',' (y :: rs)).toList))) := by simp
                rw [hchars, splitLayerTokensGo, if_neg hcnd]
                have htw : (idtail ++ '(' :: (inner ++ (')' :: ',' ::
                    (joinSep ',' (y :: rs)).toList))).takeWhile
                    (fun ch => ch != '(' && ch != ',') = idtail := by
                  rw [takeWhile_append_all _ _ hp, List.takeWhile_cons]
                  simp
                rw [htw, List.drop_left]
                try simp only []
                have hcont : (inner ++ (')' :: ',' ::
                    (joinSep ',' (y :: rs)).toList)).contains ')' = true := by
                  simp
                rw [if_pos hcont]
                have htwi : (inner ++ (')' :: ',' ::
                    (joinSep ',' (y :: rs)).toList)).takeWhile (fun ch => ch != ')') = inner := by
                  rw [takeWhile_append_all _ _ hpinner, List.takeWhile_cons]
                  simp
                rw [htwi]
                have hdropi : (inner ++ (')' :: ',' :: (joinSep ',' (y :: rs)).toList)).drop
                    (inner.length + 1) = ',' :: (joinSep ',' (y :: rs)).toList := by
                  rw [show inner.length + 1 = (inner ++ [')']).length by simp]
                  rw [show inner ++ (')' :: ',' :: (joinSep ',' (y :: rs)).toList)
                    = (inner ++ [')']) ++ ',' :: (joinSep ',' (y :: rs)).toList by simp]
                  exact List.drop_left _ _
                rw [hdropi]
                rw [if_pos (show (',' :: (joinSep ',' (y :: rs)).toList).head? = some ','
                  from rfl)]
                rw [show (',' :: (joinSep ',' (y :: rs)).toList).tail
                  = (joinSep ',' (y :: rs)).toList from rfl]
                rw [ih (y :: rs) hrestTB hlenJ]
                rw [← htok]
                try rfl

theorem splitLayerTokens_serialized (tokens : List String)
    (htb : ∀ tok ∈ tokens, TokenBody tok) :
    splitLayerTokens (joinSep ',' tokens).toList = tokens :=
  splitLayerTokensGo_serialized _ tokens htb le_rfl

theorem parse12Token_bare (cfg : Config) (id0 : String) (hne : id0.toList ≠ [])
    (hsafe : ∀ c ∈ id0.toList, (c != '(' && c != ',') = true)
    (hsafe2 : ∀ c ∈ id0.toList, (c != '(') = true) :
    parse12Token cfg id0 = some { id := redirectId cfg id0, attributes := [] } := by
  unfold parse12Token
  have htw : id0.toList.takeWhile (fun ch => ch != '(' && ch != ',') = id0.toList := by
    have := takeWhile_append_all id0.toList [] hsafe
    simpa using this
  have htw2 : id0.toList.takeWhile (fun ch => ch != '(') = id0.toList := by
    have := takeWhile_append_all id0.toList [] hsafe2
    simpa using this
  dsimp only
  rw [htw, htw2, List.drop_length]
  rw [if_neg (by simpa using hne)]
  simp only [List.isEmpty_nil, if_true]
  rfl

theorem parse12Token_paren (cfg : Config) (id0 : String) (inner : List Char)
    (hne : id0.toList ≠ [])
    (hsafe : ∀ c ∈ id0.toList, (c != '(' && c != ',') = true)
    (hsafe2 : ∀ c ∈ id0.toList, (c != '(') = true)
    (hinner : ∀ c ∈ inner, (c != '(' && c != ')') = true) :
    parse12Token cfg (String.mk (id0.toList ++ '(' :: (inner ++ [')'])))
      = some { id := redirectId cfg id0,
               attributes := (charSplitList ',' inner).map parseKvp } := by
  unfold parse12Token
  dsimp only
  rw [show (String.mk (id0.toList ++ '(' :: (inner ++ [')']))).toList
    = id0.toList ++ '(' :: (inner ++ [')']) from rfl]
  have htw : (id0.toList ++ '(' :: (inner ++ [')'])).takeWhile
      (fun ch => ch != '(' && ch != ',') = id0.toList := by
    rw [takeWhile_append_all _ _ hsafe, List.takeWhile_cons]
    simp
  have htw2 : (id0.toList ++ '(' :: (inner ++ [')'])).takeWhile
      (fun ch => ch != '(') = id0.toList := by
    rw [takeWhile_append_all _ _ hsafe2, List.takeWhile_cons]
    simp
  rw [htw, htw2, List.drop_left]
  rw [if_neg (by simpa using hne)]
  have hrev : ('(' :: (inner ++ [')'])).reverse = ')' :: (inner.reverse ++ ['(']) := by
    simp
  rw [hrev, List.takeWhile_cons, if_neg (show ¬((((')' : Char)) != ')') = true) by simp)]
  rw [show (([] : List Char)).length = 0 from rfl]
  rw [if_neg (show ¬(0 = ('(' :: (inner ++ [')'])).length) by simp)]
  have htake : ('(' :: (inner ++ [')'])).take (('(' :: (inner ++ [')'])).length - 0)
      = '(' :: (inner ++ [')']) := by
    simp
  rw [htake]
  have hfilter : ('(' :: (inner ++ [')'])).filter (fun c => c != '(' && c != ')') = inner := by
    rw [show ('(' :: (inner ++ [')'])) = ['('] ++ inner ++ [')'] by simp]
    rw [List.filter_append, List.filter_append]
    rw [List.filter_eq_self.mpr hinner]
    simp
  rw [if_neg (show ¬(('(' :: (inner ++ [')'])).isEmpty = true) by simp)]
  simp only []
  rw [hfilter]
  rfl

theorem parseKvp_bare (id0 : String) (h : '=' ∉ id0.toList) :
    parseKvp id0.toList = { id := id0, value := some (AttrValue.boolean true) } := by
  unfold parseKvp
  rw [charSplitList_no_sep '=' _ h]
  rfl

theorem parseKvp_pair (id0 v : String) (hid : '=' ∉ id0.toList) (hv : '=' ∉ v.toList) :
    parseKvp (id0.toList ++ '=' :: v.toList)
      = { id := id0, value := some (AttrValue.str v) } := by
  unfold parseKvp
  rw [charSplitList_append '=' _ _ hid, charSplitList_no_sep '=' _ hv]
  rfl

theorem getLayerSpec_parsedAttrs (L : SerializableLayer)
    (h4 : L.opacity < 1 → parseFloat (jsNumToString L.opacity) = some L.opacity)
    (h5a : 0 ≤ L.opacity) (h5b : L.opacity ≤ 1)
    (hcs : ∀ cs, L.custom = some cs → cs ≠ [] ∧ ∀ s ∈ cs, ';' ∉ s.toList) :
    getLayerSpec (parsedAttrs L)
      = some { hidden := !L.visible, opacity := L.opacity, custom := L.custom } := by
  have hclamp : clamp L.opacity 0 1 = L.opacity := by
    unfold clamp
    rw [if_neg (not_lt.mpr h5a), if_neg (not_lt.mpr h5b)]
  unfold getLayerSpec parsedAttrs
  rcases hc : L.custom with _ | cs
  · rcases Bool.eq_false_or_eq_true L.visible with hv | hv <;>
      rcases lt_or_eq_of_le h5b with ho | ho <;>
        first
          | simp [hv, ho, getLayerSpecStep, parseFloatValue, h4 ho, hclamp]
          | simp [hv, ho, getLayerSpecStep, parseFloatValue, hclamp]
  · obtain ⟨hcsne, hcssafe⟩ := hcs cs hc
    have hsplit : jsSplit ';' (joinSep ';' cs) = cs := jsSplit_joinSep ';' cs hcsne hcssafe
    rcases Bool.eq_false_or_eq_true L.visible with hv | hv <;>
      rcases lt_or_eq_of_le h5b with ho | ho <;>
        first
          | simp [hv, ho, getLayerSpecStep, parseFloatValue, h4 ho, hclamp, hsplit]
          | simp [hv, ho, getLayerSpecStep, parseFloatValue, hclamp, hsplit]

theorem toList_append (a b : String) : (a ++ b).toList = a.toList ++ b.toList := by
  simp [String.toList]

theorem parseKvp_attr_none (a : Attr) (hval : a.value = none) (hid : '=' ∉ a.id.toList) :
    parseKvp (attrToURLPart a).toList = reparse a := by
  unfold attrToURLPart reparse
  rw [hval]
  exact parseKvp_bare a.id hid

theorem parseKvp_attr_str (a : Attr) (s : String) (hval : a.value = some (AttrValue.str s))
    (hid : '=' ∉ a.id.toList) (hs : '=' ∉ s.toList) :
    parseKvp (attrToURLPart a).toList = reparse a := by
  unfold attrToURLPart reparse
  rw [hval]
  have : (a.id ++ "=" ++ s).toList = a.id.toList ++ '=' :: s.toList := by
    rw [toList_append, toList_append]
    simp
  rw [this]
  exact parseKvp_pair a.id s hid hs

theorem parseKvp_attr_num (a : Attr) (q : ℚ) (hval : a.value = some (AttrValue.num q))
    (hid : '=' ∉ a.id.toList) (hs : '=' ∉ (jsNumToString q).toList) :
    parseKvp (attrToURLPart a).toList = reparse a := by
  unfold attrToURLPart reparse
  rw [hval]
  have : (a.id ++ "=" ++ jsNumToString q).toList
      = a.id.toList ++ '=' :: (jsNumToString q).toList := by
    rw [toList_append, toList_append]
    simp
  rw [this]
  exact parseKvp_pair a.id _ hid hs

theorem mem_joinSep (sep : Char) : ∀ (parts : List String), ∀ c ∈ (joinSep sep parts).toList,
    c = sep ∨ ∃ p ∈ parts, c ∈ p.toList := by
  intro parts
  induction parts with
  | nil => intro c hc; simp [joinSep] at hc
  | cons x rest ih =>
      intro c hc
      cases rest with
      | nil =>
          right
          exact ⟨x, by simp, hc⟩
      | cons y rs =>
          rw [show joinSep sep (x :: y :: rs) = x ++ String.mk [sep] ++ joinSep sep (y :: rs)
            from rfl, toList_append, toList_append] at hc
          rcases List.mem_append.mp hc with hc | hc
          · rcases List.mem_append.mp hc with hc | hc
            · exact Or.inr ⟨x, by simp, hc⟩
            · left
              simpa using hc
          · rcases ih c hc with h | ⟨p, hp, hcp⟩
            · exact Or.inl h
            · exact Or.inr ⟨p, by simp [hp], hcp⟩

theorem serializeLayers_restricted (layers : List SerializableLayer)
    (H : ∀ L ∈ layers, L.bandCombo = none ∧ L.min = none ∧ L.max = none ∧ L.squash = none ∧
      L.disabled = none ∧ L.vectorStyle = false ∧ L.granuleCount = none ∧
      L.palette = L.custom.isSome) :
    serializeLayers layers = layers.map (fun L => appendAttributesForURL L.id (serialAttrs L)) := by
  unfold serializeLayers
  apply List.map_congr_left
  intro L hL
  obtain ⟨hb, hmin, hmax, hsq, hdis, hvs, hgr, hpal⟩ := H L hL
  dsimp only
  rcases hc : L.custom with _ | cs <;> rw [hc] at hpal <;> simp at hpal <;> congr 1 <;>
    rcases lt_or_le L.opacity 1 with ho | ho <;>
      first
        | simp [serialAttrs, hb, hc, hgr, hvs, hpal, getPaletteAttributeArray,
            hmin, hmax, hsq, hdis, ho]
        | simp [serialAttrs, hb, hc, hgr, hvs, hpal, getPaletteAttributeArray,
            hmin, hmax, hsq, hdis, not_lt.mpr ho]

theorem reparse_serialAttrs (L : SerializableLayer) :
    (serialAttrs L).map reparse = parsedAttrs L := by
  unfold serialAttrs parsedAttrs
  rcases L.custom with _ | cs <;> by_cases hv : ¬L.visible = true <;>
    by_cases ho : L.opacity < 1 <;> simp [hv, ho, reparse]

theorem serialAttrs_safe (L : SerializableLayer)
    (h6 : L.opacity < 1 → SafeChars (jsNumToString L.opacity))
    (h9 : ∀ cs, L.custom = some cs → ∀ s ∈ cs, SafeChars s) :
    ∀ a ∈ serialAttrs L, ('=' ∉ a.id.toList)
      ∧ (∀ c ∈ (attrToURLPart a).toList, ¬(c = '(' ∨ c = ')'))
      ∧ (',' ∉ (attrToURLPart a).toList) := by
  intro a ha
  unfold serialAttrs at ha
  rcases List.mem_append.mp ha with ha2 | hpal
  · rcases List.mem_append.mp ha2 with hh | hop
    · have ha3 : a = { id := "hidden", value := none } := by
        rcases Bool.eq_false_or_eq_true L.visible with hv | hv <;> simp [hv] at hh
        exact hh
      subst ha3
      exact ⟨by decide, by decide, by decide⟩
    · obtain ⟨ho, ha3⟩ : L.opacity < 1 ∧
          a = { id := "opacity", value := some (AttrValue.num L.opacity) } := by
        by_cases ho : L.opacity < 1 <;> simp [ho] at hop
        exact ⟨ho, hop⟩
      subst ha3
      have h6o := h6 ho
      have htl : (attrToURLPart ⟨"opacity", some (AttrValue.num L.opacity)⟩).toList
          = ("opacity".toList ++ "=".toList) ++ (jsNumToString L.opacity).toList := by
        unfold attrToURLPart
        rw [toList_append, toList_append]
      have hlit : ∀ c ∈ ("opacity".toList ++ "=".toList),
          ¬(c = '(' ∨ c = ')' ∨ c = ',') := by decide
      refine ⟨?_, ?_, ?_⟩
      case _ =>
        show ('=' : Char) ∉ ("opacity" : String).toList
        decide
      · rw [htl]
        intro c hc
        rcases List.mem_append.mp hc with hc | hc
        · have := hlit c hc
          tauto
        · have := h6o c hc
          tauto
      · rw [htl]
        intro hc
        rcases List.mem_append.mp hc with hc | hc
        · have := hlit ',' hc
          tauto
        · have := h6o ',' hc
          tauto
  · rcases hcu : L.custom with _ | cs
    · rw [hcu] at hpal
      simp at hpal
    · rw [hcu] at hpal
      simp only [List.mem_singleton] at hpal
      subst hpal
      have hcs := h9 cs hcu
      have htl : (attrToURLPart ⟨"palette", some (AttrValue.str (joinSep ';' cs))⟩).toList
          = ("palette".toList ++ "=".toList) ++ (joinSep ';' cs).toList := by
        unfold attrToURLPart
        rw [toList_append, toList_append]
      have hlit : ∀ c ∈ ("palette".toList ++ "=".toList),
          ¬(c = '(' ∨ c = ')' ∨ c = ',') := by decide
      have hjoin : ∀ c ∈ (joinSep ';' cs).toList, ¬(c = '(' ∨ c = ')' ∨ c = ',') := by
        intro c hc
        rcases mem_joinSep ';' cs c hc with h | ⟨p, hp, hcp⟩
        · subst h
          decide
        · have := hcs p hp c hcp
          tauto
      refine ⟨?_, ?_, ?_⟩
      case _ =>
        show ('=' : Char) ∉ ("palette" : String).toList
        decide
      · rw [htl]
        intro c hc
        rcases List.mem_append.mp hc with hc | hc
        · have := hlit c hc
          tauto
        · have := hjoin c hc
          tauto
      · rw [htl]
        intro hc
        rcases List.mem_append.mp hc with hc | hc
        · have := hlit ',' hc
          tauto
        · have := hjoin ',' hc
          tauto

theorem serialAttrs_reparse (L : SerializableLayer)
    (h6 : L.opacity < 1 → SafeChars (jsNumToString L.opacity))
    (h9 : ∀ cs, L.custom = some cs → ∀ s ∈ cs, SafeChars s) :
    ∀ a ∈ serialAttrs L, parseKvp (attrToURLPart a).toList = reparse a := by
  intro a ha
  unfold serialAttrs at ha
  rcases List.mem_append.mp ha with ha2 | hpal
  · rcases List.mem_append.mp ha2 with hh | hop
    · have ha3 : a = { id := "hidden", value := none } := by
        rcases Bool.eq_false_or_eq_true L.visible with hv | hv <;> simp [hv] at hh
        exact hh
      subst ha3
      exact parseKvp_attr_none _ rfl (by decide)
    · obtain ⟨ho, ha3⟩ : L.opacity < 1 ∧
          a = { id := "opacity", value := some (AttrValue.num L.opacity) } := by
        by_cases ho : L.opacity < 1 <;> simp [ho] at hop
        exact ⟨ho, hop⟩
      subst ha3
      refine parseKvp_attr_num _ L.opacity rfl ?_ ?_
      · show ('=' : Char) ∉ ("opacity" : String).toList
        decide
      · intro hc
        have := h6 ho '=' hc
        tauto
  · rcases hcu : L.custom with _ | cs
    · rw [hcu] at hpal
      simp at hpal
    · rw [hcu] at hpal
      simp only [List.mem_singleton] at hpal
      subst hpal
      have hcs := h9 cs hcu
      refine parseKvp_attr_str _ (joinSep ';' cs) rfl ?_ ?_
      · show ('=' : Char) ∉ ("palette" : String).toList
        decide
      · intro hc
        rcases mem_joinSep ';' cs '=' hc with h | ⟨p, hp, hcp⟩
        · cases h
        · have := hcs p hp '=' hcp
          tauto

theorem parse_append_attrs (cfg : Config) (id0 : String) (attrs : List Attr)
    (h1 : id0.toList ≠ []) (h2 : SafeChars id0) (h3 : redirectId cfg id0 = id0)
    (hsafe : ∀ a ∈ attrs, ('=' ∉ a.id.toList)
      ∧ (∀ c ∈ (attrToURLPart a).toList, ¬(c = '(' ∨ c = ')'))
      ∧ (',' ∉ (attrToURLPart a).toList))
    (hre : ∀ a ∈ attrs, parseKvp (attrToURLPart a).toList = reparse a) :
    parse12Token cfg (appendAttributesForURL id0 attrs)
      = some { id := id0, attributes := attrs.map reparse } := by
  have hsafeA : ∀ c ∈ id0.toList, (c != '(' && c != ',') = true := by
    intro c hc
    have := h2 c hc
    simp only [bne_iff_ne, ne_eq, Bool.and_eq_true, decide_eq_true_eq]
    tauto
  have hsafeB : ∀ c ∈ id0.toList, (c != '(') = true := by
    intro c hc
    have := h2 c hc
    simp only [bne_iff_ne, ne_eq, decide_eq_true_eq]
    tauto
  cases attrs with
  | nil =>
      rw [appendAttributesForURL]
      simp only [List.isEmpty_nil, if_true]
      rw [parse12Token_bare cfg id0 h1 hsafeA hsafeB, h3]
      rfl
  | cons a as =>
      rw [appendAttributesForURL, if_neg (by simp)]
      have htok : id0 ++ "(" ++ joinSep ',' ((a :: as).map attrToURLPart) ++ ")"
          = String.mk (id0.toList ++
              '(' :: ((joinSep ',' ((a :: as).map attrToURLPart)).toList ++ [')'])) := by
        apply String.ext
        show (id0 ++ "(" ++ joinSep ',' ((a :: as).map attrToURLPart) ++ ")").toList
          = id0.toList ++ '(' :: ((joinSep ',' ((a :: as).map attrToURLPart)).toList ++ [')'])
        rw [toList_append, toList_append, toList_append]
        simp [String.toList]
      rw [htok]
      rw [parse12Token_paren cfg id0 _ h1 hsafeA hsafeB ?hinner]
      case hinner =>
        intro c hc
        rcases mem_joinSep ',' _ c hc with h | ⟨p, hp, hcp⟩
        · subst h
          decide
        · rcases List.mem_map.mp hp with ⟨a2, ha2, hpa⟩
          subst hpa
          have := (hsafe a2 ha2).2.1 c hcp
          simp only [bne_iff_ne, ne_eq, Bool.and_eq_true, decide_eq_true_eq]
          tauto
      rw [h3]
      have hsplit : charSplitList ',' (joinSep ',' ((a :: as).map attrToURLPart)).toList
          = ((a :: as).map attrToURLPart).map String.toList := by
        apply charSplit_joinSep
        · simp
        · intro p hp
          rcases List.mem_map.mp hp with ⟨a2, ha2, hpa⟩
          subst hpa
          exact (hsafe a2 ha2).2.2
      rw [hsplit, List.map_map, List.map_map]
      congr 2
      apply List.map_congr_left
      intro a2 ha2
      exact hre a2 ha2

theorem tokenBody_append (id0 : String) (attrs : List Attr)
    (h1 : id0.toList ≠ []) (h2 : SafeChars id0)
    (hsafe : ∀ a ∈ attrs, ∀ c ∈ (attrToURLPart a).toList, ¬(c = '(' ∨ c = ')')) :
    TokenBody (appendAttributesForURL id0 attrs) := by
  unfold appendAttributesForURL TokenBody
  cases attrs with
  | nil =>
      simp only [List.isEmpty_nil, if_true]
      exact ⟨id0.toList, [], Or.inl rfl, h1,
        fun c hc => by have := h2 c hc; tauto, fun c hc => absurd hc (List.not_mem_nil c)⟩
  | cons a as =>
      simp only [List.isEmpty_cons, Bool.false_eq_true, if_false]
      refine ⟨id0.toList, (joinSep ',' ((a :: as).map attrToURLPart)).toList, Or.inr ?_, h1,
        fun c hc => by have := h2 c hc; tauto, ?_⟩
      · rw [toList_append, toList_append, toList_append]
        simp [String.toList]
      · intro c hc
        rcases mem_joinSep ',' _ c hc with h | ⟨p, hp, hcp⟩
        · subst h
          decide
        · rcases List.mem_map.mp hp with ⟨a2, ha2, hpa⟩
          subst hpa
          exact hsafe a2 ha2 c hcp

theorem mapM_map_eq_some {α β γ : Type} (f : β → Option γ) (g : α → β) (h : α → γ) :
    ∀ (l : List α), (∀ a ∈ l, f (g a) = some (h a)) →
      (l.map g).mapM f = some (l.map h) := by
  intro l
  induction l with
  | nil => intro _; rfl
  | cons a as ih =>
      intro hp
      rw [List.map_cons, ← List.mapM'_eq_mapM]
      simp only [List.mapM']
      rw [hp a (by simp), List.mapM'_eq_mapM, ih (fun x hx => hp x (by simp [hx]))]
      rfl

theorem createLayerArrayFromState_exact (cfg : Config) (f : Lstate → LayerSpec) :
    ∀ (ls : List Lstate),
      (∀ l ∈ ls, cfg.layers.contains l.id = true ∧ getLayerSpec l.attributes = some (f l)) →
      createLayerArrayFromState ls cfg
        = some (ls.map (fun l => { id := l.id, spec := f l })) := by
  intro ls
  induction ls with
  | nil => intro _; rfl
  | cons l rest ih =>
      intro hall
      obtain ⟨hcont, hspec⟩ := hall l (by simp)
      have hmem : l.id ∈ cfg.layers := by simpa using hcont
      rw [createLayerArrayFromState_cons, ih (fun x hx => hall x (by simp [hx]))]
      simp [hmem, hspec]

/-- C3: amended round-trip — for any list of catalog layers of the
    restricted shape (safe ids, faithfully stringified opacity, optional
    palette override, no band-combination or vector state), parsing the
    v1.2 permalink produced by the serializer restores exactly the same
    ids in order, with the same visibility, opacity and palette custom
    override. -/
theorem C3_roundtrip_restricted (cfg : Config) (layers : List SerializableLayer)
    (H : ∀ L ∈ layers, RoundTrippable cfg L) :
    layersParse12 (serializePermalink layers) cfg
      = layers.map (fun L => ({ id := L.id, spec :=
          { hidden := (!L.visible), opacity := L.opacity, custom := L.custom } }
            : ActiveLayer)) := by
  have hser : serializeLayers layers
      = layers.map (fun L => appendAttributesForURL L.id (serialAttrs L)) :=
    serializeLayers_restricted layers (fun L hL => by
      obtain ⟨_, _, _, _, _, _, _, _, hb, hmin, hmax, hsq, hdis, hvs, hgr, hpal, _⟩ := H L hL
      exact ⟨hb, hmin, hmax, hsq, hdis, hvs, hgr, hpal⟩)
  unfold layersParse12 serializePermalink
  rw [hser]
  have htokens : splitLayerTokens (joinSep ','
      (layers.map (fun L => appendAttributesForURL L.id (serialAttrs L)))).toList
      = layers.map (fun L => appendAttributesForURL L.id (serialAttrs L)) := by
    apply splitLayerTokens_serialized
    intro tok htok
    rcases List.mem_map.mp htok with ⟨L, hL, htokL⟩
    subst htokL
    obtain ⟨h1, h2, _, _, _, _, _, h6, _, _, _, _, _, _, _, _, h9m1, h9m2⟩ := H L hL
    have h9 : ∀ cs, L.custom = some cs → cs ≠ [] ∧ ∀ s ∈ cs, SafeChars s := by
      intro cs hcs
      rw [hcs] at h9m1 h9m2
      exact ⟨h9m1 rfl, h9m2⟩
    exact tokenBody_append L.id (serialAttrs L) h1 h2
      (fun a ha => (serialAttrs_safe L h6 (fun cs hcs => (h9 cs hcs).2) a ha).2.1)
  rw [htokens]
  have hmapM : (layers.map (fun L => appendAttributesForURL L.id (serialAttrs L))).mapM
        (parse12Token cfg)
      = some (layers.map (fun L => ({ id := L.id, attributes := parsedAttrs L } : Lstate))) := by
    apply mapM_map_eq_some
    intro L hL
    obtain ⟨h1, h2, _, h3, _, _, _, h6, _, _, _, _, _, _, _, _, h9m1, h9m2⟩ := H L hL
    have h9 : ∀ cs, L.custom = some cs → cs ≠ [] ∧ ∀ s ∈ cs, SafeChars s := by
      intro cs hcs
      rw [hcs] at h9m1 h9m2
      exact ⟨h9m1 rfl, h9m2⟩
    have h9w : ∀ cs, L.custom = some cs → ∀ s ∈ cs, SafeChars s :=
      fun cs hcs => (h9 cs hcs).2
    rw [parse_append_attrs cfg L.id (serialAttrs L) h1 h2 h3
      (serialAttrs_safe L h6 h9w) (serialAttrs_reparse L h6 h9w)]
    rw [reparse_serialAttrs]
  rw [hmapM]
  have hcreate : createLayerArrayFromState
      (layers.map (fun L => ({ id := L.id, attributes := parsedAttrs L } : Lstate))) cfg
      = some ((layers.map (fun L => ({ id := L.id, attributes := parsedAttrs L } : Lstate))).map
          (fun l => { id := l.id, spec := (getLayerSpec l.attributes).getD {} })) := by
    apply createLayerArrayFromState_exact
    intro l hl
    rcases List.mem_map.mp hl with ⟨L, hL, hlL⟩
    subst hlL
    obtain ⟨_, _, hcont, _, h4, h5a, h5b, _, _, _, _, _, _, _, _, _, h9m1, h9m2⟩ := H L hL
    have h9 : ∀ cs, L.custom = some cs → cs ≠ [] ∧ ∀ s ∈ cs, SafeChars s := by
      intro cs hcs
      rw [hcs] at h9m1 h9m2
      exact ⟨h9m1 rfl, h9m2⟩
    have h9x : ∀ cs, L.custom = some cs → cs ≠ [] ∧ ∀ s ∈ cs, ';' ∉ s.toList := by
      intro cs hcs
      refine ⟨(h9 cs hcs).1, fun s hs hmem => ?_⟩
      have := (h9 cs hcs).2 s hs ';' hmem
      tauto
    refine ⟨hcont, ?_⟩
    rw [getLayerSpec_parsedAttrs L h4 h5a h5b h9x]
    rfl
  dsimp only
  rw [hcreate]
  dsimp only
  rw [List.map_map]
  apply List.map_congr_left
  intro L hL
  obtain ⟨_, _, _, _, h4, h5a, h5b, _, _, _, _, _, _, _, _, _, h9m1, h9m2⟩ := H L hL
  have h9 : ∀ cs, L.custom = some cs → cs ≠ [] ∧ ∀ s ∈ cs, SafeChars s := by
    intro cs hcs
    rw [hcs] at h9m1 h9m2
    exact ⟨h9m1 rfl, h9m2⟩
  have h9x : ∀ cs, L.custom = some cs → cs ≠ [] ∧ ∀ s ∈ cs, ';' ∉ s.toList := by
    intro cs hcs
    refine ⟨(h9 cs hcs).1, fun s hs hmem => ?_⟩
    have := (h9 cs hcs).2 s hs ';' hmem
    tauto
  show ({ id := L.id, spec := (getLayerSpec (parsedAttrs L)).getD {} } : ActiveLayer) = _
  rw [getLayerSpec_parsedAttrs L h4 h5a h5b h9x]
  rfl

/-- C3: counterexample to the claim as stated — a layer carrying a
    band-combination override serializes under the key `bandCombo`, but
    the parser only reads the key `bands`, so the override is dropped and
    the layer comes back with the default (empty) spec. -/
theorem C3_bandCombo_dropped :
    layersParse12 (serializePermalink
        [⟨"layer", true, 1, some [("B4", "B3")], false, none, none, none, none, none, false,
          none⟩]) exampleConfig
      = [{ id := "layer", spec := {} }]
    ∧ ({} : LayerSpec).bandCombo = none :=
  ⟨by decide, rfl⟩

/-- C3: witness — a concrete two-layer list (one hidden layer with a
    palette override, one default visible layer) round-trips through
    serialize-then-parse. -/
theorem C3_roundtrip_witness :
    layersParse12 (serializePermalink
        [⟨"layer", false, 1, none, true, some ["orangediv"], none, none, none, none, false,
          none⟩,
         ⟨"modis", true, 1, none, false, none, none, none, none, none, false, none⟩])
      exampleConfig
      = [{ id := "layer",
           spec := { hidden := true, custom := some ["orangediv"] } },
         { id := "modis", spec := {} }] :=
  C3_roundtrip_restricted exampleConfig
    [⟨"layer", false, 1, none, true, some ["orangediv"], none, none, none, none, false,
      none⟩,
     ⟨"modis", true, 1, none, false, none, none, none, none, none, false, none⟩] (by decide)
